import Mathlib

/-!
Verification of the mod reconciliation and folder-organization engine of a
Marvel Rivals mod manager (Rust/Tauri).  The definitions below are a shallow
embedding of `src/src-tauri/src/mod_service.rs` and `src/src-tauri/src/types.rs`:
paths are strings (or lists of path segments relative to a root), the
filesystem is a list of file paths, and the metadata store is a map from
identifier to metadata.  Machine-level details that no claim touches
(file sizes, mtimes, thumbnail lookups) are omitted; every omission is noted
at the definition it concerns.
-/

namespace MRMM

/-! ## String utilities

`replaceAllFuel` models Rust `str::replace`: leftmost-first, non-overlapping
replacement of every occurrence of `pat`.  The `fuel` argument makes the
recursion structural so that terms reduce inside `decide`/`rfl`; calling it
with `fuel = l.length` (as `rustReplace` does) always suffices because each
step consumes at least one character. -/
def replaceAllFuel (pat rep : List Char) : Nat → List Char → List Char
  | _, [] => []
  | 0, l => l
  | fuel + 1, c :: rest =>
    if pat ≠ [] ∧ pat.isPrefixOf (c :: rest) then
      rep ++ replaceAllFuel pat rep fuel (List.drop (pat.length - 1) rest)
    else
      c :: replaceAllFuel pat rep fuel rest

/-- Rust `s.replace(pat, rep)` (replace all occurrences, scanning left to right). -/
def rustReplace (s pat rep : String) : String :=
  ⟨replaceAllFuel pat.data rep.data s.data.length s.data⟩

/-- The disabled-file marker used throughout `mod_service.rs`. -/
def markerL : List Char := ['.', 'd', 'i', 's', 'a', 'b', 'l', 'e', 'd']

/-- `file_name.replace(".disabled", "")`, the normalization applied by
`generate_mod_id_from_path` and `create_mod_info`. -/
def removeDisabled (s : String) : String := rustReplace s ".disabled" ""

/-- Rust `str::contains` for a non-empty literal pattern, on char lists. -/
def containsSeqL (pat : List Char) : List Char → Bool
  | [] => pat.isEmpty
  | c :: rest => pat.isPrefixOf (c :: rest) || containsSeqL pat rest

def containsSeq (s pat : String) : Bool := containsSeqL pat.data s.data

/-- Characters after the last `'.'` of the list, when a dot exists at all. -/
def extSplit : List Char → Option (List Char)
  | [] => none
  | c :: rest =>
    if c = '.' then some ((extSplit rest).getD rest) else extSplit rest

/-- Rust `Path::extension` applied to a bare file name: `none` when there is
no dot, or when the only dot is the leading one (hidden files). -/
def rustExtension (name : String) : Option String :=
  match name.data with
  | [] => none
  | c :: rest =>
    if c = '.' then (extSplit rest).map (fun e => ⟨e⟩)
    else (extSplit (c :: rest)).map (fun e => ⟨e⟩)

/-- Characters strictly before the last `'.'`; `none` when no dot exists. -/
def stemSplit : List Char → Option (List Char)
  | [] => none
  | c :: rest =>
    if c = '.' then
      match stemSplit rest with
      | some s => some ('.' :: s)
      | none => some []
    else
      match stemSplit rest with
      | some s => some (c :: s)
      | none => none

/-- Rust `Path::file_stem` applied to a bare file name: the part before the
final dot, or the whole name when there is no dot or only a leading dot. -/
def rustFileStem (name : String) : Option String :=
  match name.data with
  | [] => none
  | c :: rest =>
    if c = '.' then
      match stemSplit rest with
      | some s => some ⟨'.' :: s⟩
      | none => some ⟨c :: rest⟩
    else
      match stemSplit (c :: rest) with
      | some s => some ⟨s⟩
      | none => some ⟨c :: rest⟩

/-- `SUPPORTED_EXTENSIONS` from `mod_service.rs`. -/
def SUPPORTED_EXTENSIONS : List String := [".pak"]

/-- `ModService::is_mod_file` applied to the file name of a path (Rust
`Path::extension` only looks at the final component). -/
def isModFileName (name : String) : Bool :=
  match rustExtension name with
  | some e => SUPPORTED_EXTENSIONS.contains ("." ++ e)
  | none => false

/-- Rust `str::split_whitespace` on char lists (words, empties skipped). -/
def wordsAux (cur : List Char) : List Char → List (List Char)
  | [] => if cur = [] then [] else [cur.reverse]
  | c :: rest =>
    if c.isWhitespace then
      if cur = [] then wordsAux [] rest else cur.reverse :: wordsAux [] rest
    else
      wordsAux (c :: cur) rest

def splitWhitespaceL (l : List Char) : List (List Char) := wordsAux [] l

/-- Rust `str::split` with a char-class closure: keeps empty pieces
(the caller filters them, as `extract_mod_name` does). -/
def splitDelimsAux (isDelim : Char → Bool) (cur : List Char) :
    List Char → List (List Char)
  | [] => [cur.reverse]
  | c :: rest =>
    if isDelim c then cur.reverse :: splitDelimsAux isDelim [] rest
    else splitDelimsAux isDelim (c :: cur) rest

def splitDelims (isDelim : Char → Bool) (l : List Char) : List (List Char) :=
  splitDelimsAux isDelim [] l

/-! ## Name inference (`extract_mod_name`, `split_camel_case`)

Character classification uses Lean's ASCII `Char.isUpper`/`isLower`/`isDigit`;
the Rust code uses the Unicode classes, which agree on the ASCII range that
mod file names use. -/

/-- Indices `i` of `cs` at which `split_camel_case` starts a new part:
a lowercase letter followed by an uppercase one, or two uppercase letters
followed by a lowercase one. -/
def camelBoundary (cs : List Char) (i : Nat) : Bool :=
  decide (0 < i) &&
    (((cs.getD (i - 1) ' ').isLower && (cs.getD i ' ').isUpper) ||
      (decide (1 < i) && (cs.getD (i - 2) ' ').isUpper &&
        (cs.getD (i - 1) ' ').isUpper && (cs.getD i ' ').isLower))

/-- `ModService::split_camel_case`: slice the word at every boundary. -/
def split_camel_case (word : String) : List String :=
  let cs := word.data
  let bs := (List.range cs.length).filter (fun i => camelBoundary cs i)
  let parts := ((0 :: bs).zip (bs ++ [cs.length])).map
    (fun ab => ⟨(cs.drop ab.1).take (ab.2 - ab.1)⟩)
  parts

/-- The per-word capitalization step of `extract_mod_name`: short all-caps /
non-alphabetic tokens are kept verbatim, otherwise first char uppercased and
the rest lowercased. -/
def capitalizeWord (word : String) : String :=
  if word.data.length ≤ 3 ∧ word.data.all (fun c => c.isUpper || !c.isAlpha) then
    word
  else
    match word.data with
    | [] => ""
    | f :: rest => ⟨f.toUpper :: rest.map Char.toLower⟩

/-- `ModService::extract_mod_name`.  Stage by stage as in the source:
stem, strip `_P`/`_pak`/`&`, split on `- _ .` dropping empties and long
numeric tokens, drop a short uppercase leading token, split camel case,
capitalize, join with spaces. -/
def extract_mod_name (file_name : String) : String :=
  let stem := (rustFileStem file_name).getD "Untitled Mod"
  let cleaned_stem := rustReplace (rustReplace (rustReplace stem "_P" "") "_pak" "") "&" " "
  let parts := (splitDelims (fun c => c = '-' || c = '_' || c = '.') cleaned_stem.data).map
    (fun l => (⟨l⟩ : String))
  let parts := parts.filter (fun s => !s.data.isEmpty)
  let parts := parts.filter (fun s => !(s.data.all (fun c => c.isDigit)) || s.data.length ≤ 2)
  let cleaned := ((parts.enum.filter (fun si =>
      if si.1 = 0 then
        !(si.2.data.length ≤ 2 ∧ si.2.data.all (fun c => c.isUpper || !c.isAlpha))
      else true)).map (fun si => si.2))
  let joined := String.intercalate " " cleaned
  let words := (splitWhitespaceL joined.data).map (fun l => (⟨l⟩ : String))
  let words := (words.map split_camel_case).flatten
  String.intercalate " " (words.map capitalizeWord)

/-! ## `sanitize_folder_name`

Steps exactly as in the free function at the bottom of `mod_service.rs`:
filter reserved characters, collapse whitespace, spaces to hyphens, trim
`- . ' '` at both ends, truncate to 100 characters.  The trailing comment in
the source says "Return default if empty" but the final `.into()` is the
identity, so an empty result is returned as the empty string. -/
def sanitize_folder_name (name : String) : String :=
  let filtered := name.data.filter (fun c =>
    !(c = '<' || c = '>' || c = ':' || c = '"' || c = '/' || c = '\\' ||
      c = '|' || c = '?' || c = '*'))
  let collapsed := String.intercalate " " ((splitWhitespaceL filtered).map (fun l => (⟨l⟩ : String)))
  let hyphened := collapsed.data.map (fun c => if c = ' ' then '-' else c)
  let isTrim : Char → Bool := fun c => c = '-' || c = '.' || c = ' '
  let trimmed := ((hyphened.dropWhile isTrim).reverse.dropWhile isTrim).reverse
  (⟨trimmed.take 100⟩ : String)

/-! ## SHA-256 (RustCrypto `sha2`, as used by `generate_mod_id_from_path`)

Implemented over `Nat` with explicit reduction mod `2^32`; bytes are `Nat`s
below 256.  Only determinism matters to the claims, but the function is the
real hash so that concrete identifiers evaluate faithfully. -/

def w32 (x : Nat) : Nat := x % 4294967296

def rotr32 (x n : Nat) : Nat := w32 ((x >>> n) ||| (x <<< (32 - n)))

def xor3 (a b c : Nat) : Nat := Nat.xor (Nat.xor a b) c

def bigSigma0 (x : Nat) : Nat := xor3 (rotr32 x 2) (rotr32 x 13) (rotr32 x 22)
def bigSigma1 (x : Nat) : Nat := xor3 (rotr32 x 6) (rotr32 x 11) (rotr32 x 25)
def smallSigma0 (x : Nat) : Nat := xor3 (rotr32 x 7) (rotr32 x 18) (x >>> 3)
def smallSigma1 (x : Nat) : Nat := xor3 (rotr32 x 17) (rotr32 x 19) (x >>> 10)

def shaCh (x y z : Nat) : Nat := Nat.xor (Nat.land x y) (Nat.land (4294967295 - x) z)
def shaMaj (x y z : Nat) : Nat :=
  Nat.xor (Nat.xor (Nat.land x y) (Nat.land x z)) (Nat.land y z)

def shaK : List Nat :=
  [1116352408, 1899447441, 3049323471, 3921009573, 961987163, 1508970993,
   2453635748, 2870763221, 3624381080, 310598401, 607225278, 1426881987,
   1925078388, 2162078206, 2614888103, 3248222580, 3835390401, 4022224774,
   264347078, 604807628, 770255983, 1249150122, 1555081692, 1996064986,
   2554220882, 2821834349, 2952996808, 3210313671, 3336571891, 3584528711,
   113926993, 338241895, 666307205, 773529912, 1294757372, 1396182291,
   1695183700, 1986661051, 2177026350, 2456956037, 2730485921, 2820302411,
   3259730800, 3345764771, 3516065817, 3600352804, 4094571909, 275423344,
   430227734, 506948616, 659060556, 883997877, 958139571, 1322822218,
   1537002063, 1747873779, 1955562222, 2024104815, 2227730452, 2361852424,
   2428436474, 2756734187, 3204031479, 3329325298]

def shaH0 : List Nat :=
  [1779033703, 3144134277, 1013904242, 2773480762,
   1359893119, 2600822924, 528734635, 1541459225]

/-- Extend a 16-word block to the 64-word message schedule. -/
def shaSchedule (block : List Nat) : List Nat :=
  (List.range 48).foldl
    (fun acc _ =>
      let n := acc.length
      acc ++ [w32 (smallSigma1 (acc.getD (n - 2) 0) + acc.getD (n - 7) 0 +
        smallSigma0 (acc.getD (n - 15) 0) + acc.getD (n - 16) 0)])
    block

/-- One round of the compression function on the 8-word state. -/
def shaRound (st : List Nat) (kw : Nat × Nat) : List Nat :=
  let a := st.getD 0 0
  let b := st.getD 1 0
  let c := st.getD 2 0
  let d := st.getD 3 0
  let e := st.getD 4 0
  let f := st.getD 5 0
  let g := st.getD 6 0
  let h := st.getD 7 0
  let t1 := w32 (h + bigSigma1 e + shaCh e f g + kw.1 + kw.2)
  let t2 := w32 (bigSigma0 a + shaMaj a b c)
  [w32 (t1 + t2), a, b, c, w32 (d + t1), e, f, g]

def shaCompress (h : List Nat) (block : List Nat) : List Nat :=
  let ws := shaSchedule block
  let st := (shaK.zip ws).foldl (fun st kw => shaRound st (kw.2, kw.1)) h
  (h.zip st).map (fun p => w32 (p.1 + p.2))

/-- Big-endian byte rendering of `x` in `n` bytes. -/
def beBytes : Nat → Nat → List Nat
  | 0, _ => []
  | n + 1, x => beBytes n (x / 256) ++ [x % 256]

/-- SHA-256 padding of a byte message. -/
def shaPad (msg : List Nat) : List Nat :=
  let withOne := msg ++ [128]
  let rem := withOne.length % 64
  let zeros := (64 + 56 - rem) % 64
  withOne ++ List.replicate zeros 0 ++ beBytes 8 (msg.length * 8)

/-- Chunk a list into pieces of `n` elements (`n > 0`); fueled so it reduces. -/
def chunksFuel (n : Nat) : Nat → List α → List (List α)
  | _, [] => []
  | 0, _ => []
  | fuel + 1, l => l.take n :: chunksFuel n fuel (l.drop n)

def bytesToWords (bytes : List Nat) : List Nat :=
  (chunksFuel 4 bytes.length bytes).map (fun b =>
    b.foldl (fun acc x => acc * 256 + x) 0)

def sha256Bytes (msg : List Nat) : List Nat :=
  let blocks := chunksFuel 64 (shaPad msg).length (shaPad msg)
  let final := blocks.foldl (fun h blk => shaCompress h (bytesToWords blk)) shaH0
  (final.map (beBytes 4)).flatten

def hexDigit (n : Nat) : Char :=
  if n < 10 then Char.ofNat (48 + n) else Char.ofNat (87 + n)

def byteHex (b : Nat) : List Char := [hexDigit (b / 16), hexDigit (b % 16)]

/-- The `format!("{:x}", result)` lowercase hex rendering of a digest. -/
def bytesHex (bs : List Nat) : String := ⟨(bs.map byteHex).flatten⟩

/-- UTF-8 encoding of one scalar value. -/
def utf8Encode (c : Char) : List Nat :=
  let n := c.toNat
  if n < 128 then [n]
  else if n < 2048 then
    [192 ||| (n >>> 6), 128 ||| (n &&& 63)]
  else if n < 65536 then
    [224 ||| (n >>> 12), 128 ||| ((n >>> 6) &&& 63), 128 ||| (n &&& 63)]
  else
    [240 ||| (n >>> 18), 128 ||| ((n >>> 12) &&& 63),
     128 ||| ((n >>> 6) &&& 63), 128 ||| (n &&& 63)]

def utf8Bytes (s : String) : List Nat := (s.data.map utf8Encode).flatten

def sha256HexOfString (s : String) : String := bytesHex (sha256Bytes (utf8Bytes s))

/-- `ModService::generate_mod_id_from_path`: hash the path string with the
`.disabled` marker removed and keep the first 16 hex characters.  The Rust
fallback branch (hash the bare file name when the path is not valid UTF-8) is
unrepresentable in this model, where paths are strings; `file_name` is kept
in the signature to mirror the source. -/
def generate_mod_id_from_path (file_path : String) (file_name : String) : String :=
  (sha256HexOfString (removeDisabled file_path)).take 16

/-- The path with the disabled marker appended to its file name.  The marker
convention is a suffix after the extension (`update_metadata` tests
`file_name_str.ends_with(".disabled")`), so appending to the path appends to
its final component. -/
def withDisabledMarker (p : String) : String := p ++ ".disabled"

/-- The `/`-separated components of a path string. -/
def pathSegments (p : String) : List String :=
  (splitDelims (fun c => c = '/') p.data).map (fun l => (⟨l⟩ : String))

/-- The last `/`-separated component of a path string (its file name). -/
def pathFileNameStr (p : String) : String := (pathSegments p).getLast?.getD ""

/-- All `/`-separated components of a path string except the last
(its parent directory). -/
def pathParentStr (p : String) : List String := (pathSegments p).dropLast

/-- Canonical form of the `.disabled` replacement on char lists. -/
def stripD (l : List Char) : List Char := replaceAllFuel markerL [] l.length l

/-! ## Data model (`types.rs`) -/

inductive ModCategory where
  | UI
  | Audio
  | Skins
  | Gameplay
deriving DecidableEq, Repr

/-- `ModCategory::keywords`. -/
def ModCategory.keywords : ModCategory → List String
  | .UI => ["ui", "hud", "menu", "interface"]
  | .Audio => ["audio", "sound", "music", "voice"]
  | .Skins => ["skin", "costume", "outfit", "appearance"]
  | .Gameplay => ["gameplay", "mechanic", "ability", "stat"]

/-- `Display for ModCategory`. -/
def ModCategory.display : ModCategory → String
  | .UI => "UI"
  | .Audio => "Audio"
  | .Skins => "Skins"
  | .Gameplay => "Gameplay"

inductive Character where
  | CaptainAmerica
  | DoctorStrange
  | Groot
  | Hulk
  | Magneto
  | PeniParker
  | TheThing
  | Thor
  | Venom
  | Angela
  | Blade
  | BlackPanther
  | BlackWidow
  | Daredevil
  | EmmaFrost
  | Gambit
  | Hawkeye
  | Hela
  | HumanTorch
  | IronFist
  | Magik
  | MisterFantastic
  | MoonKnight
  | Namor
  | Phoenix
  | Psylocke
  | ScarletWitch
  | SpiderMan
  | SquirrelGirl
  | StarLord
  | Storm
  | ThePunisher
  | Ultron
  | WinterSoldier
  | Wolverine
  | AdamWarlock
  | CloakAndDagger
  | InvisibleWoman
  | IronMan
  | JeffTheLandShark
  | Loki
  | LunaSnow
  | Mantis
  | RocketRaccoon
deriving DecidableEq, Repr

/-- `Character::all_characters` (note: includes `Gambit`). -/
def Character.all_characters : List Character :=
  [.CaptainAmerica, .DoctorStrange, .Groot, .Hulk, .Magneto, .PeniParker,
   .TheThing, .Thor, .Venom, .Angela, .Blade, .BlackPanther, .BlackWidow,
   .Daredevil, .EmmaFrost, .Gambit, .Hawkeye, .Hela, .HumanTorch, .IronFist,
   .Magik, .MisterFantastic, .MoonKnight, .Namor, .Phoenix, .Psylocke,
   .ScarletWitch, .SpiderMan, .SquirrelGirl, .StarLord, .Storm, .ThePunisher,
   .Ultron, .WinterSoldier, .Wolverine, .AdamWarlock, .CloakAndDagger,
   .InvisibleWoman, .IronMan, .JeffTheLandShark, .Loki, .LunaSnow, .Mantis,
   .RocketRaccoon]

/-- The local detection array in `detect_character_from_path` /
`detect_character` of `mod_service.rs` (note: this array omits `Gambit`). -/
def detectionCharacters : List Character :=
  [.CaptainAmerica, .DoctorStrange, .Groot, .Hulk, .Magneto, .PeniParker,
   .TheThing, .Thor, .Venom, .Angela, .Blade, .BlackPanther, .BlackWidow,
   .Daredevil, .EmmaFrost, .Hawkeye, .Hela, .HumanTorch, .IronFist, .Magik,
   .MisterFantastic, .MoonKnight, .Namor, .Phoenix, .Psylocke, .ScarletWitch,
   .SpiderMan, .SquirrelGirl, .StarLord, .Storm, .ThePunisher, .Ultron,
   .WinterSoldier, .Wolverine, .AdamWarlock, .CloakAndDagger, .InvisibleWoman,
   .IronMan, .JeffTheLandShark, .Loki, .LunaSnow, .Mantis, .RocketRaccoon]

/-- `Character::keywords`. -/
def Character.keywords : Character → List String
  | .CaptainAmerica => ["captainamerica", "captain", "rogers", "steve"]
  | .DoctorStrange => ["doctorstrange", "strange", "stephen"]
  | .Groot => ["groot"]
  | .Hulk => ["hulk", "banner", "bruce"]
  | .Magneto => ["magneto", "erik", "max"]
  | .PeniParker => ["peni", "parker", "peniparker"]
  | .TheThing => ["thing", "ben", "grimm"]
  | .Thor => ["thor", "odinson"]
  | .Venom => ["venom", "symbiote", "eddie"]
  | .Angela => ["angela"]
  | .Blade => ["blade", "eric", "brooks"]
  | .BlackPanther => ["blackpanther", "panther", "tchalla"]
  | .BlackWidow => ["blackwidow", "widow", "natasha", "romanoff"]
  | .Daredevil => ["daredevil", "matt", "murdock"]
  | .EmmaFrost => ["emma", "frost", "emmafrost", "white", "queen"]
  | .Gambit => ["gambit", "remy", "lebeau"]
  | .Hawkeye => ["hawkeye", "clint", "barton"]
  | .Hela => ["hela"]
  | .HumanTorch => ["human", "torch", "humantorch", "johnny", "storm"]
  | .IronFist => ["ironfist", "danny", "rand"]
  | .Magik => ["magik", "illyana"]
  | .MisterFantastic => ["mister", "fantastic", "misterfantastic", "reed", "richards"]
  | .MoonKnight => ["moonknight", "marc", "spector"]
  | .Namor => ["namor", "submariner"]
  | .Phoenix => ["phoenix", "jean", "grey"]
  | .Psylocke => ["psylocke", "betsy"]
  | .ScarletWitch => ["scarletwitch", "wanda", "maximoff"]
  | .SpiderMan => ["spiderman", "spider", "peter", "parker"]
  | .SquirrelGirl => ["squirrelgirl", "doreen"]
  | .StarLord => ["starlord", "star", "lord", "quill", "peter"]
  | .Storm => ["storm", "ororo"]
  | .ThePunisher => ["punisher", "frank", "castle"]
  | .Ultron => ["ultron"]
  | .WinterSoldier => ["wintersoldier", "winter", "bucky", "barnes"]
  | .Wolverine => ["wolverine", "logan", "james", "howlett"]
  | .AdamWarlock => ["adamwarlock", "adam", "warlock"]
  | .CloakAndDagger => ["cloak", "dagger", "cloakanddagger", "tyrone", "tandy"]
  | .InvisibleWoman => ["invisiblewoman", "invisible", "sue", "storm"]
  | .IronMan => ["ironman", "tony", "stark"]
  | .JeffTheLandShark => ["jeff", "landshark", "shark"]
  | .Loki => ["loki", "laufeyson"]
  | .LunaSnow => ["lunasnow", "luna", "snow"]
  | .Mantis => ["mantis"]
  | .RocketRaccoon => ["rocketraccoon", "rocket", "raccoon"]

/-- `Display for Character`. -/
def Character.display : Character → String
  | .CaptainAmerica => "Captain America"
  | .DoctorStrange => "Doctor Strange"
  | .Groot => "Groot"
  | .Hulk => "Hulk"
  | .Magneto => "Magneto"
  | .PeniParker => "Peni Parker"
  | .TheThing => "The Thing"
  | .Thor => "Thor"
  | .Venom => "Venom"
  | .Angela => "Angela"
  | .Blade => "Blade"
  | .BlackPanther => "Black Panther"
  | .BlackWidow => "Black Widow"
  | .Daredevil => "Daredevil"
  | .EmmaFrost => "Emma Frost"
  | .Gambit => "Gambit"
  | .Hawkeye => "Hawkeye"
  | .Hela => "Hela"
  | .HumanTorch => "Human Torch"
  | .IronFist => "Iron Fist"
  | .Magik => "Magik"
  | .MisterFantastic => "Mister Fantastic"
  | .MoonKnight => "Moon Knight"
  | .Namor => "Namor"
  | .Phoenix => "Phoenix"
  | .Psylocke => "Psylocke"
  | .ScarletWitch => "Scarlet Witch"
  | .SpiderMan => "Spider-Man"
  | .SquirrelGirl => "Squirrel Girl"
  | .StarLord => "Star-Lord"
  | .Storm => "Storm"
  | .ThePunisher => "The Punisher"
  | .Ultron => "Ultron"
  | .WinterSoldier => "Winter Soldier"
  | .Wolverine => "Wolverine"
  | .AdamWarlock => "Adam Warlock"
  | .CloakAndDagger => "Cloak and Dagger"
  | .InvisibleWoman => "Invisible Woman"
  | .IronMan => "Iron Man"
  | .JeffTheLandShark => "Jeff the Land Shark"
  | .Loki => "Loki"
  | .LunaSnow => "Luna Snow"
  | .Mantis => "Mantis"
  | .RocketRaccoon => "Rocket Raccoon"

/-- Modelled from the spec: chrono's `DateTime<Utc>` (an external crate, out
of core scope) represented by its canonical RFC 3339 rendering, which is the
form serde serializes it to and parses it from. -/
structure DateTimeUtc where
  rfc3339 : String
deriving DecidableEq, Repr

/-- `ModMetadata` from `types.rs` (all fields, in declaration order). -/
structure ModMetadata where
  title : String
  description : String
  author : Option String
  version : Option String
  tags : List String
  category : ModCategory
  character : Option Character
  costume : Option String
  isFavorite : Bool
  isNsfw : Bool
  createdAt : DateTimeUtc
  updatedAt : DateTimeUtc
  installDate : DateTimeUtc
  profileIds : Option (List String)
  nexusModId : Option Int
  nexusFileId : Option Int
  nexusVersion : Option String
deriving DecidableEq, Repr

/-! ## JSON layer (serde_json data model)

`save_metadata` serializes with `serde_json::to_string_pretty` and
`load_metadata` parses with `serde_json::from_str`.  The embedding stores the
JSON document (AST) a sidecar file holds; the print/parse layer between the
AST and the byte file is serde_json's, an external collaborator whose
round-trip the model takes at its interface. -/

inductive Json where
  | null
  | bool (b : Bool)
  | num (n : Int)
  | str (s : String)
  | arr (elems : List Json)
  | obj (fields : List (String × Json))

/-- Field lookup in a JSON object (serde accepts any field order). -/
def jGet (fields : List (String × Json)) (k : String) : Option Json :=
  (fields.find? (fun kv => kv.1 = k)).map (fun kv => kv.2)

/-- serde: unit enum variants serialize as their (possibly renamed) name. -/
def ModCategory.toJson (c : ModCategory) : Json := .str c.display

def ModCategory.fromJson : Json → Option ModCategory
  | .str "UI" => some .UI
  | .str "Audio" => some .Audio
  | .str "Skins" => some .Skins
  | .str "Gameplay" => some .Gameplay
  | _ => none

/-- serde rename table for `Character`: the `#[serde(rename = "...")]`
attributes coincide with the `Display` strings in `types.rs`. -/
def Character.serdeName (c : Character) : String := c.display

def Character.fromJson (j : Json) : Option Character :=
  match j with
  | .str s => Character.all_characters.find? (fun c => c.serdeName = s)
  | _ => none

def Character.toJson (c : Character) : Json := .str c.serdeName

def optToJson (enc : α → Json) : Option α → Json
  | none => .null
  | some a => enc a

def optFromJson (dec : Json → Option α) : Json → Option (Option α)
  | .null => some none
  | j => (dec j).map some

def decodeStr : Json → Option String
  | .str s => some s
  | _ => none

def decodeBool : Json → Option Bool
  | .bool b => some b
  | _ => none

def decodeInt : Json → Option Int
  | .num n => some n
  | _ => none

/-- serde sequence decoding, element by element. -/
def decodeStrs : List Json → Option (List String)
  | [] => some []
  | j :: rest => (decodeStr j).bind (fun s => (decodeStrs rest).map (fun ss => s :: ss))

def decodeStrList : Json → Option (List String)
  | .arr xs => decodeStrs xs
  | _ => none

def DateTimeUtc.toJson (t : DateTimeUtc) : Json := .str t.rfc3339

def DateTimeUtc.fromJson : Json → Option DateTimeUtc
  | .str s => some ⟨s⟩
  | _ => none

/-- The serialized field list of `ModMetadata` (camelCase field names,
declaration order, `Option` as nullable). -/
def metaJsonFields (m : ModMetadata) : List (String × Json) :=
  [("title", .str m.title),
   ("description", .str m.description),
   ("author", optToJson .str m.author),
   ("version", optToJson .str m.version),
   ("tags", .arr (m.tags.map .str)),
   ("category", m.category.toJson),
   ("character", optToJson Character.toJson m.character),
   ("costume", optToJson .str m.costume),
   ("isFavorite", .bool m.isFavorite),
   ("isNsfw", .bool m.isNsfw),
   ("createdAt", m.createdAt.toJson),
   ("updatedAt", m.updatedAt.toJson),
   ("installDate", m.installDate.toJson),
   ("profileIds", optToJson (fun l => .arr (l.map .str)) m.profileIds),
   ("nexusModId", optToJson .num m.nexusModId),
   ("nexusFileId", optToJson .num m.nexusFileId),
   ("nexusVersion", optToJson .str m.nexusVersion)]

/-- serde serialization of `ModMetadata`. -/
def ModMetadata.toJson (m : ModMetadata) : Json := .obj (metaJsonFields m)

/-- First half of the decoded fields of `ModMetadata` (deserialization is
split in two purely to keep elaboration linear; the semantics is the single
serde pass). -/
structure MetaPartA where
  title : String
  description : String
  author : Option String
  version : Option String
  tags : List String
  category : ModCategory
  character : Option Character
  costume : Option String

/-- Second half of the decoded fields of `ModMetadata`. -/
structure MetaPartB where
  isFavorite : Bool
  isNsfw : Bool
  createdAt : DateTimeUtc
  updatedAt : DateTimeUtc
  installDate : DateTimeUtc
  profileIds : Option (List String)
  nexusModId : Option Int
  nexusFileId : Option Int
  nexusVersion : Option String

def metaFieldsA (fs : List (String × Json)) : Option MetaPartA :=
  Option.bind ((jGet fs "title").bind decodeStr) (fun (title : String) =>
  Option.bind ((jGet fs "description").bind decodeStr) (fun (description : String) =>
  Option.bind (optFromJson decodeStr ((jGet fs "author").getD .null)) (fun author =>
  Option.bind (optFromJson decodeStr ((jGet fs "version").getD .null)) (fun version =>
  Option.bind ((jGet fs "tags").bind decodeStrList) (fun tags =>
  Option.bind ((jGet fs "category").bind ModCategory.fromJson) (fun category =>
  Option.bind (optFromJson Character.fromJson ((jGet fs "character").getD .null)) (fun character =>
  Option.bind (optFromJson decodeStr ((jGet fs "costume").getD .null)) (fun costume =>
  some ⟨title, description, author, version, tags, category, character, costume⟩))))))))

def metaFieldsB (fs : List (String × Json)) : Option MetaPartB :=
  Option.bind ((jGet fs "isFavorite").bind decodeBool) (fun isFavorite =>
  Option.bind ((jGet fs "isNsfw").bind decodeBool) (fun isNsfw =>
  Option.bind ((jGet fs "createdAt").bind DateTimeUtc.fromJson) (fun createdAt =>
  Option.bind ((jGet fs "updatedAt").bind DateTimeUtc.fromJson) (fun updatedAt =>
  Option.bind ((jGet fs "installDate").bind DateTimeUtc.fromJson) (fun installDate =>
  Option.bind (optFromJson decodeStrList ((jGet fs "profileIds").getD .null)) (fun profileIds =>
  Option.bind (optFromJson decodeInt ((jGet fs "nexusModId").getD .null)) (fun nexusModId =>
  Option.bind (optFromJson decodeInt ((jGet fs "nexusFileId").getD .null)) (fun nexusFileId =>
  Option.bind (optFromJson decodeStr ((jGet fs "nexusVersion").getD .null)) (fun nexusVersion =>
  some ⟨isFavorite, isNsfw, createdAt, updatedAt, installDate, profileIds,
        nexusModId, nexusFileId, nexusVersion⟩)))))))))

/-- serde deserialization of `ModMetadata`: every required field must be
present and well-typed; `Option` fields accept `null` (and serde also treats
a missing `Option` field as `None`, modelled by the `.getD .null`). -/
def ModMetadata.fromJson (j : Json) : Option ModMetadata :=
  match j with
  | .obj fs =>
    (metaFieldsA fs).bind (fun a =>
      (metaFieldsB fs).map (fun b =>
        ⟨a.title, a.description, a.author, a.version, a.tags, a.category,
         a.character, a.costume, b.isFavorite, b.isNsfw, b.createdAt,
         b.updatedAt, b.installDate, b.profileIds, b.nexusModId,
         b.nexusFileId, b.nexusVersion⟩))
  | _ => none

/-- The metadata directory: identifier to stored JSON document (the file
`<metadata-dir>/<id>.json`). -/
def MetaDir := List (String × Json)

/-- `ModService::save_metadata`: serialize and overwrite the sidecar
(`fs::write` truncates; the newest entry shadows).  Creating the metadata
directory has no content in this model. -/
def save_metadata (st : MetaDir) (mod_id : String) (m : ModMetadata) : MetaDir :=
  ((mod_id, m.toJson) :: st : List (String × Json))

/-- `ModService::load_metadata`: `Ok(None)` when no sidecar exists, parse
error otherwise surfaced as `Err`. -/
def load_metadata (st : MetaDir) (mod_id : String) :
    Except String (Option ModMetadata) :=
  match jGet st mod_id with
  | none => .ok none
  | some doc =>
    match ModMetadata.fromJson doc with
    | some m => .ok (some m)
    | none => .error "Failed to parse metadata"

/-! ## Filesystem and scanner model

A file is a list of path segments relative to one of the two roots
(`modsDir`, the active root, or `disabledDir`).  A root's contents are the
list of its files in walk order (`WalkDir` yields directories too, which the
scanner skips via `file_type().is_file()`, and files that fail to `stat` are
skipped; the walk lists here enumerate exactly the stat-able files).
Path strings are joined with `/`; only the string content feeds the hash. -/

structure Dirs where
  modsDir : String
  disabledDir : String
deriving DecidableEq

/-- An absolute file location: which root it is under, and the relative
segments. -/
structure AbsPath where
  active : Bool
  segs : List String
deriving DecidableEq

def joinSegs (segs : List String) : String := String.intercalate "/" segs

def Dirs.rootStr (d : Dirs) (active : Bool) : String :=
  if active then d.modsDir else d.disabledDir

def pathString (d : Dirs) (p : AbsPath) : String :=
  d.rootStr p.active ++ "/" ++ joinSegs p.segs

/-- The file name of a relative path (its last segment). -/
def lastSeg (p : List String) : String := p.getLast?.getD ""

/-- The identifier `create_mod_info` derives for a file at `p`. -/
def pathId (d : Dirs) (p : AbsPath) : String :=
  generate_mod_id_from_path (pathString d p) (removeDisabled (lastSeg p.segs))

/-- `ModService::find_associated_files`: the primary file first, then the
`.ucas`/`.utoc` companions beside it that exist. -/
def find_associated_files (fs : List (List String)) (p : List String) :
    List (List String) :=
  let base := (rustFileStem (lastSeg p)).getD ""
  let dir := p.dropLast
  [p] ++
    (if (dir ++ [base ++ ".ucas"]) ∈ fs then [dir ++ [base ++ ".ucas"]] else []) ++
    (if (dir ++ [base ++ ".utoc"]) ∈ fs then [dir ++ [base ++ ".utoc"]] else [])

/-- `ModInfo` from `types.rs`.  Omitted (no claim touches them):
`thumbnail_path`, `file_size`, `install_date`, `last_modified` — pure
filesystem/clock facts. -/
structure ModInfo where
  id : String
  name : String
  category : ModCategory
  character : Option Character
  enabled : Bool
  isFavorite : Bool
  path : AbsPath
  assoc : List AbsPath
  originalFileName : String
  metadata : ModMetadata
deriving DecidableEq

def toLowerStr (s : String) : String := ⟨s.data.map Char.toLower⟩

/-- `ModService::detect_category` (filename keyword fallback). -/
def detect_category (file_name : String) : ModCategory :=
  let lower := toLowerStr file_name
  (([ModCategory.UI, .Audio, .Skins, .Gameplay].find?
    (fun cat => cat.keywords.any (fun kw => containsSeq lower kw))).getD .Skins)

/-- `ModService::detect_category_from_path`: bounded path segments first,
then the filename keywords, defaulting to Skins. -/
def detect_category_from_path (file_path : String) (file_name : String) :
    ModCategory :=
  let path_str := toLowerStr file_path
  if containsSeq path_str "\\skins\\" || containsSeq path_str "/skins/" then .Skins
  else if containsSeq path_str "\\ui\\" || containsSeq path_str "/ui/" then .UI
  else if containsSeq path_str "\\audio\\" || containsSeq path_str "/audio/" then .Audio
  else if containsSeq path_str "\\gameplay\\" || containsSeq path_str "/gameplay/" then .Gameplay
  else detect_category file_name

/-- `ModService::detect_character` (filename keyword fallback; first match
in the fixed roster order wins). -/
def detect_character (file_name : String) : Option Character :=
  let lower := toLowerStr file_name
  detectionCharacters.find?
    (fun ch => ch.keywords.any (fun kw => containsSeq lower kw))

/-- `ModService::detect_character_from_path`. -/
def detect_character_from_path (file_path : String) (file_name : String) :
    Option Character :=
  let path_str := toLowerStr file_path
  match detectionCharacters.find? (fun ch => ch.keywords.any (fun kw =>
      containsSeq path_str ("\\" ++ kw ++ "\\") ||
      containsSeq path_str ("/" ++ kw ++ "/"))) with
  | some ch => some ch
  | none => detect_character file_name

/-- The default metadata `create_mod_info` synthesizes when no sidecar
exists (fresh `now` timestamps, inferred title/category/character, all the
rest empty). -/
def synthMetadata (now : DateTimeUtc) (file_path_str : String)
    (clean_file_name : String) : ModMetadata :=
  { title := extract_mod_name clean_file_name
    description := ""
    author := none
    version := none
    tags := []
    category := detect_category_from_path file_path_str clean_file_name
    character := detect_character_from_path file_path_str clean_file_name
    costume := none
    isFavorite := false
    isNsfw := false
    createdAt := now
    updatedAt := now
    installDate := now
    profileIds := none
    nexusModId := none
    nexusFileId := none
    nexusVersion := none }

/-- The metadata store as the scanner consumes it: `load_metadata(id)` with
`.ok().flatten()`, i.e. both a missing sidecar and a read/parse failure
collapse to `none`.  (The sidecar files themselves are the `MetaDir` model
of `save_metadata`/`load_metadata` above.) -/
def MetaStore := String → Option ModMetadata

/-- `ModService::create_mod_info` at a file that exists (`fs::metadata`
succeeded — the walk lists only stat-able files).  `fs` is the listing of
the root `fp` lives under, for the companion-existence checks. -/
def create_mod_info (store : MetaStore) (now : DateTimeUtc) (d : Dirs)
    (fs : List (List String)) (fp : AbsPath) (is_enabled : Bool) : ModInfo :=
  let file_name := lastSeg fp.segs
  let clean_file_name := removeDisabled file_name
  let pstr := pathString d fp
  let mod_id := pathId d fp
  let meta := (store mod_id).getD (synthMetadata now pstr clean_file_name)
  { id := mod_id
    name := meta.title
    category := meta.category
    character := meta.character
    enabled := is_enabled
    isFavorite := meta.isFavorite
    path := fp
    assoc := (find_associated_files fs fp.segs).map (fun q => ⟨fp.active, q⟩)
    originalFileName := clean_file_name
    metadata := meta }

/-- The deduplication state of one full scan. -/
structure ScanAcc where
  mods : List ModInfo
  paths : List AbsPath
  ids : List String

/-- One candidate file of `scan_directory_with_deduplication`: skip
non-`.pak` files, skip already-processed physical paths, skip
already-emitted identifiers, else emit.  `active` is both the root being
walked and the `is_enabled` flag, exactly as at the two call sites in
`get_all_mods`. -/
def processEntry (store : MetaStore) (now : DateTimeUtc) (d : Dirs)
    (fs : List (List String)) (active : Bool) (acc : ScanAcc)
    (p : List String) : ScanAcc :=
  if isModFileName (lastSeg p) = false then acc
  else if (⟨active, p⟩ : AbsPath) ∈ acc.paths then acc
  else
    let info := create_mod_info store now d fs ⟨active, p⟩ active
    if info.id ∈ acc.ids then acc
    else ⟨acc.mods ++ [info], acc.paths ++ [⟨active, p⟩], acc.ids ++ [info.id]⟩

def scan_directory_with_deduplication (store : MetaStore) (now : DateTimeUtc)
    (d : Dirs) (fs : List (List String)) (active : Bool) (acc : ScanAcc) :
    ScanAcc :=
  fs.foldl (processEntry store now d fs active) acc

/-- Lexicographic code-point comparison of strings — Rust's `str::cmp`
compares bytes, and for valid UTF-8 byte order and code-point order agree. -/
def strLtL : List Char → List Char → Bool
  | [], [] => false
  | [], _ :: _ => true
  | _ :: _, [] => false
  | a :: as, b :: bs =>
    if a.toNat < b.toNat then true
    else if b.toNat < a.toNat then false
    else strLtL as bs

def strLt (a b : String) : Bool := strLtL a.data b.data

/-- Stable insertion preserving earlier elements on equal names — the model
of Rust's stable `sort_by(|a, b| a.name.cmp(&b.name))`. -/
def insertByName (m : ModInfo) : List ModInfo → List ModInfo
  | [] => [m]
  | x :: xs => if strLt m.name x.name then m :: x :: xs else x :: insertByName m xs

def sortByName (l : List ModInfo) : List ModInfo :=
  l.foldl (fun acc m => insertByName m acc) []

/-- `ModService::get_all_mods`: scan the active root, then the disabled
root, sharing one deduplication state; sort by display name.
(`ensure_directory_exists` only creates missing directories.) -/
def get_all_mods (store : MetaStore) (now : DateTimeUtc) (d : Dirs)
    (fsA fsD : List (List String)) : List ModInfo :=
  let acc1 := scan_directory_with_deduplication store now d fsA true ⟨[], [], []⟩
  let acc2 := scan_directory_with_deduplication store now d fsD false acc1
  sortByName acc2.mods

/-! ## Organizer (`organize_loose_mods`) -/

/-- `fs::rename` of one file: the destination overwrites. -/
def renameFile (fs : List (List String)) (src dst : List String) :
    List (List String) :=
  (fs.filter (fun q => q ≠ src)) ++ [dst]

/-- The target folder `organize_loose_mods` computes: display category,
optional display character, sanitized name (category/character are *not*
sanitized here, as in the source). -/
def organizeTargetFolder (m : ModInfo) : List String :=
  (m.category.display ::
    (match m.character with | some c => [c.display] | none => [])) ++
    [sanitize_folder_name m.name]

/-- One record of the `organize_loose_mods` loop: disabled records are
skipped; a mod is loose only when its parent directory is literally the
active root; every associated file is moved into the computed folder. -/
def organizeModStep (st : List (List String) × Nat) (m : ModInfo) :
    List (List String) × Nat :=
  if m.enabled = false then st
  else if m.path.active = true ∧ m.path.segs.dropLast = [] then
    let tgt := organizeTargetFolder m
    (m.assoc.foldl (fun fs a => renameFile fs a.segs (tgt ++ [lastSeg a.segs])) st.1,
      st.2 + 1)
  else st

/-- `ModService::organize_loose_mods`: rescan, move every enabled loose mod,
count the moves.  The trailing `cleanup_empty_mod_folders` removes only
recursively file-free directories, which does not change the file listing
this model tracks. -/
def organize_loose_mods (store : MetaStore) (now : DateTimeUtc) (d : Dirs)
    (fsA fsD : List (List String)) : List (List String) × Nat :=
  (get_all_mods store now d fsA fsD).foldl organizeModStep (fsA, 0)

/-! ## Enable/disable (`enable_mod`) -/

/-- Move one associated file into the top level of the destination root,
keeping its file name: `fs::rename(file_path, dest_dir.join(file_name))`. -/
def moveFileTo (ab : List (List String) × List (List String)) (a : AbsPath)
    (enabled : Bool) : List (List String) × List (List String) :=
  let removed :=
    if a.active then (ab.1.filter (fun q => q ≠ a.segs), ab.2)
    else (ab.1, ab.2.filter (fun q => q ≠ a.segs))
  if enabled then (removed.1 ++ [[lastSeg a.segs]], removed.2)
  else (removed.1, removed.2 ++ [[lastSeg a.segs]])

/-- `ModService::enable_mod`: locate the record by identifier in a fresh
scan (`find_mod_by_id`), fail when absent, else move every associated file
to the destination root.  The file names are not changed. -/
def enable_mod (store : MetaStore) (now : DateTimeUtc) (d : Dirs)
    (fsA fsD : List (List String)) (mod_id : String) (enabled : Bool) :
    Except String (List (List String) × List (List String)) :=
  match (get_all_mods store now d fsA fsD).find? (fun m => m.id = mod_id) with
  | none => .error "Mod not found"
  | some info =>
    .ok (info.assoc.foldl (fun ab a => moveFileTo ab a enabled) (fsA, fsD))

/-! ## Install (`install_mod`, `install_mod_to_folder`,
`install_mod_to_folder_with_metadata`) -/

/-- A source file outside the roots: its directory, name, and which
companions sit beside it. -/
structure SrcFile where
  dir : String
  name : String
  hasUcas : Bool
  hasUtoc : Bool

/-- `fs::copy` to a destination (overwrites). -/
def addFile (fs : List (List String)) (p : List String) : List (List String) :=
  (fs.filter (fun q => q ≠ p)) ++ [p]

/-- `save_metadata` as it updates the scanner-facing store view. -/
def storeInsert (store : MetaStore) (k : String) (m : ModMetadata) : MetaStore :=
  fun q => if q = k then some m else store q

/-- `ModService::install_mod`: validate the extension, copy the primary file
into the active root, build the record.  No metadata is saved — the store
is returned unchanged. -/
def install_mod (store : MetaStore) (now : DateTimeUtc) (d : Dirs)
    (fsA : List (List String)) (src : SrcFile) :
    Except String (List (List String) × MetaStore × ModInfo) :=
  if isModFileName src.name = false then
    .error "Invalid file type. Only .pak files are supported."
  else
    let fsA1 := addFile fsA [src.name]
    let info := create_mod_info store now d fsA1 ⟨true, [src.name]⟩ true
    .ok (fsA1, store, info)

/-- The companion copies of the folder installs (`.ucas`/`.utoc` beside the
source, if they exist). -/
def installCompanions (fs : List (List String)) (folder : String)
    (src : SrcFile) : List (List String) :=
  let base := (rustFileStem src.name).getD ""
  let fs1 := if src.hasUcas then addFile fs [folder, base ++ ".ucas"] else fs
  if src.hasUtoc then addFile fs1 [folder, base ++ ".utoc"] else fs1

/-- `ModService::install_mod_to_folder`: copy primary and companions into
the folder, build the record, then save its (freshly synthesized or
pre-existing) metadata immediately. -/
def install_mod_to_folder (store : MetaStore) (now : DateTimeUtc) (d : Dirs)
    (fsA : List (List String)) (src : SrcFile) (folder_name : String) :
    Except String (List (List String) × MetaStore × ModInfo) :=
  if isModFileName src.name = false then
    .error "Invalid file type. Only .pak files are supported."
  else
    let fs1 := addFile fsA [folder_name, src.name]
    let fs2 := installCompanions fs1 folder_name src
    let info := create_mod_info store now d fs2 ⟨true, [folder_name, src.name]⟩ true
    .ok (fs2, storeInsert store info.id info.metadata, info)

/-- `ModService::install_mod_to_folder_with_metadata`: copy primary and
companions, save the caller-supplied metadata under the identifier derived
from the destination path, return a record built from that metadata. -/
def install_mod_to_folder_with_metadata (store : MetaStore) (now : DateTimeUtc)
    (d : Dirs) (fsA : List (List String)) (src : SrcFile)
    (folder_name : String) (metadata : ModMetadata) :
    Except String (List (List String) × MetaStore × ModInfo) :=
  if isModFileName src.name = false then
    .error "Invalid file type. Only .pak files are supported."
  else
    let fs1 := addFile fsA [folder_name, src.name]
    let fs2 := installCompanions fs1 folder_name src
    let clean_file_name := removeDisabled src.name
    let dest : AbsPath := ⟨true, [folder_name, src.name]⟩
    let mod_id := generate_mod_id_from_path (pathString d dest) clean_file_name
    let info : ModInfo :=
      { id := mod_id
        name := metadata.title
        category := metadata.category
        character := metadata.character
        enabled := true
        isFavorite := metadata.isFavorite
        path := dest
        assoc := (find_associated_files fs2 dest.segs).map (fun q => ⟨true, q⟩)
        originalFileName := clean_file_name
        metadata := metadata }
    .ok (fs2, storeInsert store mod_id metadata, info)

/-! ## Duplicate-folder merge (`merge_duplicate_folders`)

The per-pair merge step, relative to one category directory: move each
immediate child mod folder of `source` into `target` unless a same-named
entry already exists there (skipped as a conflict), then delete the source
folder with `delete_directory_with_retry`, whose success is
`fs::remove_dir_all` — a recursive delete.  The sidecar migration
(`load_metadata`/`save_metadata`/thumbnail copy) touches only the metadata
directory, not these mod files, and is omitted here. -/

/-- `Path::exists` for a path under a directory listing: it is a file or an
ancestor of one. -/
def entryExists (fs : List (List String)) (p : List String) : Bool :=
  fs.any (fun f => p.isPrefixOf f)

/-- The immediate child directories of `src`, in listing order. -/
def childDirNames (fs : List (List String)) (src : List String) : List String :=
  (fs.filterMap (fun f =>
    if src.isPrefixOf f then
      match f.drop src.length with
      | c :: _ :: _ => some c
      | _ => none
    else none)).dedup

/-- `fs::rename` of a directory: every file below moves. -/
def renameDir (fs : List (List String)) (src dst : List String) :
    List (List String) :=
  fs.map (fun f => if src.isPrefixOf f then dst ++ f.drop src.length else f)

/-- `fs::remove_dir_all`: recursive delete. -/
def removeDirAll (fs : List (List String)) (p : List String) :
    List (List String) :=
  fs.filter (fun f => ¬ p.isPrefixOf f)

def mergeSourceIntoTarget (fs : List (List String))
    (source target : List String) : List (List String) :=
  let children := childDirNames fs source
  let fs1 := children.foldl (fun acc c =>
    if entryExists acc (target ++ [c]) then acc
    else renameDir acc (source ++ [c]) (target ++ [c])) fs
  removeDirAll fs1 source

/-- The bookkeeping invariant of one scan: records, processed paths and
processed identifiers stay aligned, without duplicates, and every record's
identifier is the one derived from its path. -/
def ScanInv (d : Dirs) (acc : ScanAcc) : Prop :=
  acc.mods.map (fun m => m.id) = acc.ids ∧
  acc.mods.map (fun m => m.path) = acc.paths ∧
  acc.ids.Nodup ∧ acc.paths.Nodup ∧
  ∀ m ∈ acc.mods, m.id = pathId d m.path

/-- What a freshly emitted record of one scan phase looks like. -/
def NewScanRecord (store : MetaStore) (now : DateTimeUtc) (d : Dirs)
    (fs : List (List String)) (active : Bool) (m : ModInfo) : Prop :=
  m.enabled = active ∧ m.path.active = active ∧ m.path.segs ∈ fs ∧
  isModFileName (lastSeg m.path.segs) = true ∧
  m = create_mod_info store now d fs m.path active

/-- The facts about a scanned record that the organizer argument needs: its
own primary file is among its associated files, and every other associated
file is a companion (not a `.pak`). -/
def RecordProps (m : ModInfo) : Prop :=
  m.path ∈ m.assoc ∧
  ∀ a ∈ m.assoc, a.segs = m.path.segs ∨ isModFileName (lastSeg a.segs) = false

/-- The `.pak` identifiers of a walk, in order. -/
def pakIds (d : Dirs) (active : Bool) (walk : List (List String)) : List String :=
  (walk.filter (fun q => isModFileName (lastSeg q))).map
    (fun q => pathId d ⟨active, q⟩)

/-- Every enabled loose `.pak` file still has its own record among the
not-yet-processed ones. -/
def LooseCovered (ms : List ModInfo) (fs : List (List String)) : Prop :=
  ∀ q ∈ fs, isModFileName (lastSeg q) = true → q.dropLast = [] →
    ∃ m ∈ ms, m.path = ⟨true, q⟩ ∧ m.enabled = true

/-! ### Lemmas about `replaceAllFuel` and the marker -/

theorem replaceAllFuel_nil (pat rep : List Char) (f : Nat) :
    replaceAllFuel pat rep f [] = [] := by
  cases f <;> rfl

theorem replaceAllFuel_fuel_eq (pat rep : List Char) :
    ∀ (f g : Nat) (l : List Char), l.length ≤ f → l.length ≤ g →
      replaceAllFuel pat rep f l = replaceAllFuel pat rep g l := by
  intro f
  induction f with
  | zero =>
    intro g l h1 _
    have hl : l = [] := List.eq_nil_of_length_eq_zero (Nat.le_zero.mp h1)
    subst hl
    rw [replaceAllFuel_nil, replaceAllFuel_nil]
  | succ f ih =>
    intro g l h1 h2
    cases l with
    | nil => rw [replaceAllFuel_nil, replaceAllFuel_nil]
    | cons c rest =>
      cases g with
      | zero => simp at h2
      | succ g =>
        simp only [replaceAllFuel]
        by_cases hp : pat ≠ [] ∧ pat.isPrefixOf (c :: rest)
        · rw [if_pos hp, if_pos hp]
          congr 1
          apply ih
          · simp only [List.length_drop]
            simp only [List.length_cons] at h1
            omega
          · simp only [List.length_drop]
            simp only [List.length_cons] at h2
            omega
        · rw [if_neg hp, if_neg hp]
          congr 1
          apply ih
          · simp only [List.length_cons] at h1; omega
          · simp only [List.length_cons] at h2; omega

theorem removeDisabled_eq (s : String) : removeDisabled s = ⟨stripD s.data⟩ := rfl

theorem stripD_cons (c : Char) (rest : List Char) :
    stripD (c :: rest) =
      if markerL.isPrefixOf (c :: rest) then stripD (List.drop 8 rest)
      else c :: stripD rest := by
  show replaceAllFuel markerL [] (c :: rest).length (c :: rest) = _
  simp only [List.length_cons, replaceAllFuel]
  by_cases hp : markerL.isPrefixOf (c :: rest)
  · rw [if_pos ⟨by decide, hp⟩, if_pos hp]
    have h8 : markerL.length - 1 = 8 := by decide
    rw [h8, List.nil_append]
    apply replaceAllFuel_fuel_eq
    · simp only [List.length_drop]; omega
    · exact Nat.le_refl _
  · rw [if_neg (fun hcon => hp hcon.2), if_neg hp]
    rfl

theorem marker_no_period :
    ∀ k, k < 9 → 1 ≤ k → markerL.drop k ≠ List.take (markerL.length - k) markerL := by
  decide

theorem stripD_append_marker_aux :
    ∀ (n : Nat) (l : List Char), l.length ≤ n →
      stripD (l ++ markerL) = stripD l := by
  intro n
  induction n with
  | zero =>
    intro l h
    have hl : l = [] := List.eq_nil_of_length_eq_zero (Nat.le_zero.mp h)
    subst hl
    simp only [List.nil_append]
    decide
  | succ n ih =>
    intro l h
    cases l with
    | nil =>
      simp only [List.nil_append]
      decide
    | cons c rest =>
      rw [List.cons_append, stripD_cons, stripD_cons]
      by_cases hp : markerL.isPrefixOf (c :: rest)
      · have hp2 : markerL.isPrefixOf (c :: (rest ++ markerL)) := by
          rw [List.isPrefixOf_iff_prefix] at hp ⊢
          rw [← List.cons_append]
          exact hp.trans (List.prefix_append _ _)
        rw [if_pos hp2, if_pos hp]
        have hlen : 8 ≤ rest.length := by
          have h9 := (List.isPrefixOf_iff_prefix.mp hp).length_le
          simp only [List.length_cons] at h9
          have : markerL.length = 9 := by decide
          omega
        rw [List.drop_append_of_le_length hlen]
        apply ih
        simp only [List.length_drop]
        simp only [List.length_cons] at h
        omega
      · have hp2 : ¬ markerL.isPrefixOf (c :: (rest ++ markerL)) := by
          intro hcon
          rw [← List.cons_append] at hcon
          have hpre := List.isPrefixOf_iff_prefix.mp hcon
          have h1 : markerL = List.take markerL.length ((c :: rest) ++ markerL) :=
            List.prefix_iff_eq_take.mp hpre
          by_cases hk : markerL.length ≤ (c :: rest).length
          · rw [List.take_append_of_le_length hk] at h1
            have hpre2 : markerL <+: c :: rest := by
              rw [h1]
              exact List.take_prefix _ _
            exact hp (List.isPrefixOf_iff_prefix.mpr hpre2)
          · rw [List.take_append_eq_append_take,
              List.take_of_length_le (by omega : (c :: rest).length ≤ markerL.length)] at h1
            have h2 := congrArg (List.drop (c :: rest).length) h1
            rw [List.drop_left] at h2
            refine marker_no_period (c :: rest).length ?_ ?_ h2
            · have : markerL.length = 9 := by decide
              omega
            · simp
        rw [if_neg hp2, if_neg hp]
        rw [ih rest (by simp only [List.length_cons] at h; omega)]

theorem stripD_append_marker (l : List Char) : stripD (l ++ markerL) = stripD l :=
  stripD_append_marker_aux l.length l (Nat.le_refl _)

/-- If the pattern occurs nowhere, Rust `replace` is the identity. -/
theorem replaceAllFuel_of_not_contains (pat rep : List Char) :
    ∀ (f : Nat) (l : List Char), containsSeqL pat l = false →
      replaceAllFuel pat rep f l = l := by
  intro f
  induction f with
  | zero => intro l _; cases l <;> rfl
  | succ f ih =>
    intro l hc
    cases l with
    | nil => rfl
    | cons c rest =>
      simp only [containsSeqL, Bool.or_eq_false_iff] at hc
      simp only [replaceAllFuel]
      rw [if_neg (fun hcon => by rw [hc.1] at hcon; exact Bool.noConfusion hcon.2)]
      rw [ih rest hc.2]

theorem removeDisabled_of_not_contains (s : String)
    (h : containsSeq s ".disabled" = false) : removeDisabled s = s := by
  show rustReplace s ".disabled" "" = s
  show (⟨replaceAllFuel ".disabled".data "".data s.data.length s.data⟩ : String) = s
  rw [replaceAllFuel_of_not_contains _ _ _ _ h]

/-- C1: the derived mod identifier is invariant under the disabled marker:
`generate_mod_id_from_path` normalizes the path by removing every
`".disabled"` substring before hashing, so appending the marker to the file
name never changes the identifier. -/
theorem C1_identifier_marker_invariant (p file_name : String) :
    generate_mod_id_from_path (withDisabledMarker p) file_name =
      generate_mod_id_from_path p file_name := by
  have hdata : (withDisabledMarker p).data = p.data ++ markerL := rfl
  have h : removeDisabled (withDisabledMarker p) = removeDisabled p := by
    rw [removeDisabled_eq, removeDisabled_eq, hdata, stripD_append_marker]
  simp only [generate_mod_id_from_path, h]

/-- C2 counterexample: two distinct paths in different directories carrying
the same file name whose identifiers coincide, because the normalization
strips the `".disabled"` substring out of a directory component before
hashing.  This refutes the claim that such paths always get distinct
identifiers. -/
theorem C2_counterexample :
    "C:/Games/mods/alpha/foo.pak" ≠ "C:/Games/mods/alpha.disabled/foo.pak" ∧
    pathFileNameStr "C:/Games/mods/alpha/foo.pak" =
      pathFileNameStr "C:/Games/mods/alpha.disabled/foo.pak" ∧
    pathParentStr "C:/Games/mods/alpha/foo.pak" ≠
      pathParentStr "C:/Games/mods/alpha.disabled/foo.pak" ∧
    generate_mod_id_from_path "C:/Games/mods/alpha/foo.pak" "foo.pak" =
      generate_mod_id_from_path "C:/Games/mods/alpha.disabled/foo.pak" "foo.pak" := by
  refine ⟨by decide, by decide, by decide, ?_⟩
  have h : removeDisabled "C:/Games/mods/alpha.disabled/foo.pak" =
      removeDisabled "C:/Games/mods/alpha/foo.pak" := by decide
  simp only [generate_mod_id_from_path, h]

/-- C2 amended: for distinct paths with the same file name in different
directories, the strings fed to the hash (the marker-normalized paths) are
guaranteed distinct provided neither path contains the `".disabled"` marker
substring; identifiers can then differ only up to collisions of the
truncated 16-hex-character SHA-256.  Without the marker-freedom proviso the
normalized inputs can coincide (see the counterexample). -/
theorem C2_amended_distinct_hash_inputs (p1 p2 : String)
    (hname : pathFileNameStr p1 = pathFileNameStr p2)
    (hdir : pathParentStr p1 ≠ pathParentStr p2)
    (h1 : containsSeq p1 ".disabled" = false)
    (h2 : containsSeq p2 ".disabled" = false) :
    removeDisabled p1 ≠ removeDisabled p2 := by
  rw [removeDisabled_of_not_contains p1 h1, removeDisabled_of_not_contains p2 h2]
  intro he
  exact hdir (he ▸ rfl)

/-- Witness for the amended C2 at concrete paths. -/
theorem C2_amended_distinct_hash_inputs_witness :
    pathFileNameStr "C:/mods/a/foo.pak" = pathFileNameStr "C:/mods/b/foo.pak" ∧
    pathParentStr "C:/mods/a/foo.pak" ≠ pathParentStr "C:/mods/b/foo.pak" ∧
    containsSeq "C:/mods/a/foo.pak" ".disabled" = false ∧
    containsSeq "C:/mods/b/foo.pak" ".disabled" = false ∧
    removeDisabled "C:/mods/a/foo.pak" ≠ removeDisabled "C:/mods/b/foo.pak" :=
  ⟨by decide, by decide, by decide, by decide,
    C2_amended_distinct_hash_inputs "C:/mods/a/foo.pak" "C:/mods/b/foo.pak"
      (by decide) (by decide) (by decide) (by decide)⟩

/-- C8: the sanitizer can return the empty string (the source's trailing
comment promises "Return default if empty" but the final `.into()` is the
identity), and because truncation to 100 characters happens after trimming,
the result can end in a separator character. -/
theorem C8_sanitize_empty_and_trailing_separator :
    sanitize_folder_name "???" = "" ∧
    (sanitize_folder_name ⟨List.replicate 99 'a' ++ ['-', 'b', 'c']⟩).data.getLast? =
      some '-' := by
  constructor
  · decide
  · decide

/-! ### JSON round-trip lemmas (C4) -/

theorem jget_title (m : ModMetadata) :
    jGet (metaJsonFields m) "title" = some (.str m.title) := rfl
theorem jget_description (m : ModMetadata) :
    jGet (metaJsonFields m) "description" = some (.str m.description) := rfl
theorem jget_author (m : ModMetadata) :
    jGet (metaJsonFields m) "author" = some (optToJson .str m.author) := rfl
theorem jget_version (m : ModMetadata) :
    jGet (metaJsonFields m) "version" = some (optToJson .str m.version) := rfl
theorem jget_tags (m : ModMetadata) :
    jGet (metaJsonFields m) "tags" = some (.arr (m.tags.map .str)) := rfl
theorem jget_category (m : ModMetadata) :
    jGet (metaJsonFields m) "category" = some m.category.toJson := rfl
theorem jget_character (m : ModMetadata) :
    jGet (metaJsonFields m) "character" =
      some (optToJson Character.toJson m.character) := rfl
theorem jget_costume (m : ModMetadata) :
    jGet (metaJsonFields m) "costume" = some (optToJson .str m.costume) := rfl
theorem jget_isFavorite (m : ModMetadata) :
    jGet (metaJsonFields m) "isFavorite" = some (.bool m.isFavorite) := rfl
theorem jget_isNsfw (m : ModMetadata) :
    jGet (metaJsonFields m) "isNsfw" = some (.bool m.isNsfw) := rfl
theorem jget_createdAt (m : ModMetadata) :
    jGet (metaJsonFields m) "createdAt" = some m.createdAt.toJson := rfl
theorem jget_updatedAt (m : ModMetadata) :
    jGet (metaJsonFields m) "updatedAt" = some m.updatedAt.toJson := rfl
theorem jget_installDate (m : ModMetadata) :
    jGet (metaJsonFields m) "installDate" = some m.installDate.toJson := rfl
theorem jget_profileIds (m : ModMetadata) :
    jGet (metaJsonFields m) "profileIds" =
      some (optToJson (fun l => .arr (l.map .str)) m.profileIds) := rfl
theorem jget_nexusModId (m : ModMetadata) :
    jGet (metaJsonFields m) "nexusModId" = some (optToJson .num m.nexusModId) := rfl
theorem jget_nexusFileId (m : ModMetadata) :
    jGet (metaJsonFields m) "nexusFileId" = some (optToJson .num m.nexusFileId) := rfl
theorem jget_nexusVersion (m : ModMetadata) :
    jGet (metaJsonFields m) "nexusVersion" =
      some (optToJson .str m.nexusVersion) := rfl

theorem cat_roundtrip (c : ModCategory) : ModCategory.fromJson c.toJson = some c := by
  cases c <;> rfl

theorem char_roundtrip (c : Character) : Character.fromJson c.toJson = some c := by
  cases c <;> rfl

theorem dt_roundtrip (t : DateTimeUtc) : DateTimeUtc.fromJson t.toJson = some t := rfl

theorem optFromJson_str (o : Option String) :
    optFromJson decodeStr (optToJson Json.str o) = some o := by
  cases o <;> rfl

theorem optFromJson_char (o : Option Character) :
    optFromJson Character.fromJson (optToJson Character.toJson o) = some o := by
  cases o with
  | none => rfl
  | some c =>
    show (Character.fromJson (Character.toJson c)).map some = some (some c)
    rw [char_roundtrip]
    rfl

theorem decodeStrList_map (l : List String) :
    decodeStrList (.arr (l.map .str)) = some l := by
  induction l with
  | nil => rfl
  | cons s rest ih =>
    have ih' : decodeStrs (rest.map Json.str) = some rest := ih
    show (decodeStr (.str s)).bind
      (fun x => (decodeStrs (rest.map Json.str)).map (fun ss => x :: ss)) = some (s :: rest)
    rw [ih']
    rfl

theorem optFromJson_strList (o : Option (List String)) :
    optFromJson decodeStrList (optToJson (fun l => .arr (l.map .str)) o) = some o := by
  cases o with
  | none => rfl
  | some l =>
    show (decodeStrList (.arr (l.map .str))).map some = some (some l)
    rw [decodeStrList_map]
    rfl

theorem optFromJson_int (o : Option Int) :
    optFromJson decodeInt (optToJson Json.num o) = some o := by
  cases o <;> rfl

theorem metaFieldsA_eval (m : ModMetadata) :
    metaFieldsA (metaJsonFields m) =
      some ⟨m.title, m.description, m.author, m.version, m.tags, m.category,
            m.character, m.costume⟩ := by
  simp only [metaFieldsA, jget_title, jget_description, jget_author, jget_version,
    jget_tags, jget_category, jget_character, jget_costume, Option.some_bind,
    Option.getD_some, decodeStr, decodeStrList_map, cat_roundtrip,
    optFromJson_str, optFromJson_char]

theorem metaFieldsB_eval (m : ModMetadata) :
    metaFieldsB (metaJsonFields m) =
      some ⟨m.isFavorite, m.isNsfw, m.createdAt, m.updatedAt, m.installDate,
            m.profileIds, m.nexusModId, m.nexusFileId, m.nexusVersion⟩ := by
  simp only [metaFieldsB, jget_isFavorite, jget_isNsfw, jget_createdAt,
    jget_updatedAt, jget_installDate, jget_profileIds, jget_nexusModId,
    jget_nexusFileId, jget_nexusVersion, Option.some_bind, Option.getD_some,
    decodeBool, dt_roundtrip, optFromJson_strList, optFromJson_int,
    optFromJson_str]

theorem metadata_roundtrip (m : ModMetadata) :
    ModMetadata.fromJson m.toJson = some m := by
  show (metaFieldsA (metaJsonFields m)).bind _ = some m
  rw [metaFieldsA_eval, metaFieldsB_eval]
  rfl

theorem jGet_cons_self (k : String) (v : Json) (rest : List (String × Json)) :
    jGet ((k, v) :: rest) k = some v := by
  unfold jGet
  rw [List.find?_cons_of_pos _ (by simp)]
  rfl

/-- C4: saving metadata and loading it back under the same identifier yields
exactly the value saved — the serde JSON round-trip is lossless on every
field, including the enum variants (category, character, with their serde
renames) and all optional fields. -/
theorem C4_metadata_save_load_roundtrip (st : MetaDir) (mod_id : String)
    (m : ModMetadata) :
    load_metadata (save_metadata st mod_id m) mod_id = .ok (some m) := by
  unfold load_metadata save_metadata
  rw [jGet_cons_self]
  simp only [metadata_roundtrip]

/-! ### Scanner lemmas (C3, C9, C10) -/

theorem create_mod_info_id (store : MetaStore) (now : DateTimeUtc) (d : Dirs)
    (fs : List (List String)) (fp : AbsPath) (e : Bool) :
    (create_mod_info store now d fs fp e).id = pathId d fp := by
  simp only [create_mod_info]

theorem create_mod_info_path (store : MetaStore) (now : DateTimeUtc) (d : Dirs)
    (fs : List (List String)) (fp : AbsPath) (e : Bool) :
    (create_mod_info store now d fs fp e).path = fp := by
  simp only [create_mod_info]

theorem create_mod_info_enabled (store : MetaStore) (now : DateTimeUtc) (d : Dirs)
    (fs : List (List String)) (fp : AbsPath) (e : Bool) :
    (create_mod_info store now d fs fp e).enabled = e := by
  simp only [create_mod_info]

theorem scanInv_empty (d : Dirs) : ScanInv d ⟨[], [], []⟩ := by
  refine ⟨rfl, rfl, List.nodup_nil, List.nodup_nil, ?_⟩
  intro m hm
  exact absurd hm (List.not_mem_nil m)

theorem processEntry_inv (store : MetaStore) (now : DateTimeUtc) (d : Dirs)
    (fs : List (List String)) (active : Bool) (acc : ScanAcc) (p : List String)
    (h : ScanInv d acc) : ScanInv d (processEntry store now d fs active acc p) := by
  unfold processEntry
  by_cases h1 : isModFileName (lastSeg p) = false
  · rw [if_pos h1]; exact h
  · rw [if_neg h1]
    by_cases h2 : (⟨active, p⟩ : AbsPath) ∈ acc.paths
    · rw [if_pos h2]; exact h
    · rw [if_neg h2]
      by_cases h3 : (create_mod_info store now d fs ⟨active, p⟩ active).id ∈ acc.ids
      · rw [if_pos h3]; exact h
      · rw [if_neg h3]
        obtain ⟨hid, hpath, hnid, hnpath, hall⟩ := h
        refine ⟨?_, ?_, ?_, ?_, ?_⟩
        · simp only [List.map_append, List.map_cons, List.map_nil, hid]
        · simp only [List.map_append, List.map_cons, List.map_nil, hpath,
            create_mod_info_path]
        · rw [List.nodup_append]
          exact ⟨hnid, List.nodup_singleton _,
            by simp only [List.disjoint_singleton]; exact h3⟩
        · rw [List.nodup_append]
          exact ⟨hnpath, List.nodup_singleton _,
            by simp only [List.disjoint_singleton]; exact h2⟩
        · intro m hm
          rcases List.mem_append.mp hm with hm1 | hm2
          · exact hall m hm1
          · rw [List.mem_singleton.mp hm2, create_mod_info_id,
              create_mod_info_path]

theorem scan_inv (store : MetaStore) (now : DateTimeUtc) (d : Dirs)
    (fs : List (List String)) (active : Bool) :
    ∀ (walk : List (List String)) (acc : ScanAcc), ScanInv d acc →
      ScanInv d (walk.foldl (processEntry store now d fs active) acc) := by
  intro walk
  induction walk with
  | nil => intro acc h; exact h
  | cons p rest ih =>
    intro acc h
    exact ih _ (processEntry_inv store now d fs active acc p h)

/-- Records only accumulate: whatever is in the state stays. -/
theorem scan_mods_mono (store : MetaStore) (now : DateTimeUtc) (d : Dirs)
    (fs : List (List String)) (active : Bool) :
    ∀ (walk : List (List String)) (acc : ScanAcc) (m : ModInfo),
      m ∈ acc.mods →
      m ∈ (walk.foldl (processEntry store now d fs active) acc).mods := by
  intro walk
  induction walk with
  | nil => intro acc m hm; exact hm
  | cons p rest ih =>
    intro acc m hm
    refine ih _ m ?_
    unfold processEntry
    by_cases h1 : isModFileName (lastSeg p) = false
    · rw [if_pos h1]; exact hm
    · rw [if_neg h1]
      by_cases h2 : (⟨active, p⟩ : AbsPath) ∈ acc.paths
      · rw [if_pos h2]; exact hm
      · rw [if_neg h2]
        by_cases h3 : (create_mod_info store now d fs ⟨active, p⟩ active).id ∈ acc.ids
        · rw [if_pos h3]; exact hm
        · rw [if_neg h3]
          exact List.mem_append_left _ hm

/-- Processed identifiers only accumulate. -/
theorem scan_ids_mono (store : MetaStore) (now : DateTimeUtc) (d : Dirs)
    (fs : List (List String)) (active : Bool) :
    ∀ (walk : List (List String)) (acc : ScanAcc) (i : String),
      i ∈ acc.ids →
      i ∈ (walk.foldl (processEntry store now d fs active) acc).ids := by
  intro walk
  induction walk with
  | nil => intro acc i hi; exact hi
  | cons p rest ih =>
    intro acc i hi
    refine ih _ i ?_
    unfold processEntry
    by_cases h1 : isModFileName (lastSeg p) = false
    · rw [if_pos h1]; exact hi
    · rw [if_neg h1]
      by_cases h2 : (⟨active, p⟩ : AbsPath) ∈ acc.paths
      · rw [if_pos h2]; exact hi
      · rw [if_neg h2]
        by_cases h3 : (create_mod_info store now d fs ⟨active, p⟩ active).id ∈ acc.ids
        · rw [if_pos h3]; exact hi
        · rw [if_neg h3]
          exact List.mem_append_left _ hi

/-- Every record after a scan phase is either inherited from the incoming
state or a new record of this phase whose identifier was not yet emitted. -/
theorem scan_mem_characterization (store : MetaStore) (now : DateTimeUtc)
    (d : Dirs) (fs : List (List String)) (active : Bool) :
    ∀ (walk : List (List String)) (acc : ScanAcc) (m : ModInfo),
      walk ⊆ fs →
      m ∈ (walk.foldl (processEntry store now d fs active) acc).mods →
      m ∈ acc.mods ∨
        (m.id ∉ acc.ids ∧ NewScanRecord store now d fs active m) := by
  intro walk
  induction walk with
  | nil => intro acc m _ hm; exact Or.inl hm
  | cons p rest ih =>
    intro acc m hsub hm
    have hps : p ∈ fs := hsub (List.mem_cons_self p rest)
    have hrs : rest ⊆ fs := fun q hq => hsub (List.mem_cons_of_mem p hq)
    simp only [List.foldl_cons] at hm
    unfold processEntry at hm
    by_cases h1 : isModFileName (lastSeg p) = false
    · rw [if_pos h1] at hm; exact ih acc m hrs hm
    · rw [if_neg h1] at hm
      by_cases h2 : (⟨active, p⟩ : AbsPath) ∈ acc.paths
      · rw [if_pos h2] at hm; exact ih acc m hrs hm
      · rw [if_neg h2] at hm
        by_cases h3 : (create_mod_info store now d fs ⟨active, p⟩ active).id ∈ acc.ids
        · rw [if_pos h3] at hm; exact ih acc m hrs hm
        · rw [if_neg h3] at hm
          rcases ih _ m hrs hm with hin | ⟨hnotid, hnew⟩
          · rcases List.mem_append.mp hin with hold | hsing
            · exact Or.inl hold
            · right
              rw [List.mem_singleton.mp hsing]
              refine ⟨h3, ?_, ?_, ?_, ?_, ?_⟩
              · rfl
              · rfl
              · exact hps
              · exact eq_true_of_ne_false h1
              · rfl
          · right
            refine ⟨?_, hnew⟩
            intro hc
            exact hnotid (List.mem_append_left _ hc)

/-! ### Sorting lemmas -/

theorem insertByName_perm (m : ModInfo) (l : List ModInfo) :
    (insertByName m l).Perm (m :: l) := by
  induction l with
  | nil => exact List.Perm.refl _
  | cons x xs ih =>
    unfold insertByName
    by_cases h : strLt m.name x.name = true
    · rw [if_pos h]
    · rw [if_neg h]
      exact (ih.cons x).trans (List.Perm.swap m x xs)

theorem sortFold_perm :
    ∀ (l acc : List ModInfo),
      (l.foldl (fun a m => insertByName m a) acc).Perm (l ++ acc) := by
  intro l
  induction l with
  | nil => intro acc; exact List.Perm.refl _
  | cons m rest ih =>
    intro acc
    simp only [List.foldl_cons, List.cons_append]
    exact ((ih (insertByName m acc)).trans
      ((insertByName_perm m acc).append_left rest)).trans List.perm_middle

theorem sortByName_perm (l : List ModInfo) : (sortByName l).Perm l := by
  have h := sortFold_perm l []
  simpa using h

/-- C10: a full scan never returns two records with the same identifier,
nor two records with the same primary file path — `processed_ids` and
`processed_paths` are checked before every emission and sorting only
permutes. -/
theorem C10_scan_duplicate_free (store : MetaStore) (now : DateTimeUtc)
    (d : Dirs) (fsA fsD : List (List String)) :
    ((get_all_mods store now d fsA fsD).map (fun m => m.id)).Nodup ∧
    ((get_all_mods store now d fsA fsD).map (fun m => m.path)).Nodup := by
  have hinv : ScanInv d (scan_directory_with_deduplication store now d fsD false
      (scan_directory_with_deduplication store now d fsA true ⟨[], [], []⟩)) :=
    scan_inv store now d fsD false fsD _
      (scan_inv store now d fsA true fsA _ (scanInv_empty d))
  obtain ⟨hid, hpath, hnid, hnpath, _⟩ := hinv
  have hperm := sortByName_perm (scan_directory_with_deduplication store now d
    fsD false (scan_directory_with_deduplication store now d fsA true
      ⟨[], [], []⟩)).mods
  constructor
  · exact ((hperm.map (fun m => m.id)).nodup_iff).mpr (hid ▸ hnid)
  · exact ((hperm.map (fun m => m.path)).nodup_iff).mpr (hpath ▸ hnpath)

/-- Every walked `.pak` file leaves its identifier among the processed ids,
whether it was emitted, path-deduplicated or id-deduplicated. -/
theorem scan_covers_id (store : MetaStore) (now : DateTimeUtc) (d : Dirs)
    (fs : List (List String)) (active : Bool) :
    ∀ (walk : List (List String)) (acc : ScanAcc), ScanInv d acc →
      ∀ p ∈ walk, isModFileName (lastSeg p) = true →
        pathId d ⟨active, p⟩ ∈
          (walk.foldl (processEntry store now d fs active) acc).ids := by
  intro walk
  induction walk with
  | nil =>
    intro acc _ p hp _
    exact absurd hp (List.not_mem_nil p)
  | cons q rest ih =>
    intro acc hinv p hp hpak
    simp only [List.foldl_cons]
    rcases List.mem_cons.mp hp with heq | hrest
    · subst heq
      apply scan_ids_mono store now d fs active rest
      unfold processEntry
      rw [if_neg (by simp [hpak])]
      by_cases h2 : (⟨active, p⟩ : AbsPath) ∈ acc.paths
      · rw [if_pos h2]
        obtain ⟨hid, hpath, _, _, hall⟩ := hinv
        rw [← hpath] at h2
        obtain ⟨m, hm, hmp⟩ := List.mem_map.mp h2
        rw [← hid]
        refine List.mem_map.mpr ⟨m, hm, ?_⟩
        rw [hall m hm, hmp]
      · rw [if_neg h2]
        by_cases h3 : (create_mod_info store now d fs ⟨active, p⟩ active).id ∈ acc.ids
        · rw [if_pos h3]
          rw [create_mod_info_id] at h3
          exact h3
        · rw [if_neg h3]
          show pathId d ⟨active, p⟩ ∈ acc.ids ++ [_]
          refine List.mem_append_right _ ?_
          rw [create_mod_info_id]
          exact List.mem_singleton.mpr rfl
    · exact ih _ (processEntry_inv store now d fs active acc q hinv) p hrest hpak

/-- C3: when the active root holds a mod file and the disabled root holds a
copy of logically the same mod (same marker-normalized path string, hence
the same identifier), a full scan returns exactly one record carrying that
identifier, and that record is from the active root (`enabled = true`):
the active root is scanned first and later candidates with an
already-emitted identifier are skipped. -/
theorem C3_active_copy_wins (store : MetaStore) (now : DateTimeUtc) (d : Dirs)
    (fsA fsD : List (List String)) (pa pd : List String)
    (ha : pa ∈ fsA) (hpa : isModFileName (lastSeg pa) = true)
    (hd : pd ∈ fsD) (hpd : isModFileName (lastSeg pd) = true)
    (hid : pathId d ⟨true, pa⟩ = pathId d ⟨false, pd⟩) :
    ((get_all_mods store now d fsA fsD).map (fun m => m.id)).count
        (pathId d ⟨true, pa⟩) = 1 ∧
    ∀ m ∈ get_all_mods store now d fsA fsD,
      m.id = pathId d ⟨true, pa⟩ → m.enabled = true := by
  simp only [get_all_mods]
  have hinv1 : ScanInv d (scan_directory_with_deduplication store now d fsA true
      ⟨[], [], []⟩) := scan_inv store now d fsA true fsA _ (scanInv_empty d)
  have hinv2 : ScanInv d (scan_directory_with_deduplication store now d fsD false
      (scan_directory_with_deduplication store now d fsA true ⟨[], [], []⟩)) :=
    scan_inv store now d fsD false fsD _ hinv1
  have hcov : pathId d ⟨true, pa⟩ ∈
      (scan_directory_with_deduplication store now d fsA true ⟨[], [], []⟩).ids :=
    scan_covers_id store now d fsA true fsA ⟨[], [], []⟩ (scanInv_empty d) pa ha hpa
  -- a record with this identifier exists after phase one, and it is enabled
  obtain ⟨hid1, _, _, _, _⟩ := hinv1
  rw [← hid1] at hcov
  obtain ⟨m0, hm0, hm0id⟩ := List.mem_map.mp hcov
  have hm0en : m0.enabled = true := by
    rcases scan_mem_characterization store now d fsA true fsA ⟨[], [], []⟩ m0
        (fun q hq => hq) hm0 with hin | ⟨_, hnew⟩
    · exact absurd hin (List.not_mem_nil m0)
    · exact hnew.1
  have hm0mem2 : m0 ∈ (scan_directory_with_deduplication store now d fsD false
      (scan_directory_with_deduplication store now d fsA true ⟨[], [], []⟩)).mods :=
    scan_mods_mono store now d fsD false fsD _ m0 hm0
  obtain ⟨hid2, _, hnid2, _, _⟩ := hinv2
  have hnodup2 : ((scan_directory_with_deduplication store now d fsD false
      (scan_directory_with_deduplication store now d fsA true
        ⟨[], [], []⟩)).mods.map (fun m => m.id)).Nodup := hid2 ▸ hnid2
  have hperm := sortByName_perm (scan_directory_with_deduplication store now d
    fsD false (scan_directory_with_deduplication store now d fsA true
      ⟨[], [], []⟩)).mods
  constructor
  · rw [(hperm.map (fun m => m.id)).count_eq]
    exact List.count_eq_one_of_mem hnodup2
      (List.mem_map.mpr ⟨m0, hm0mem2, hm0id⟩)
  · intro m hm hmid
    have hm2 : m ∈ (scan_directory_with_deduplication store now d fsD false
        (scan_directory_with_deduplication store now d fsA true
          ⟨[], [], []⟩)).mods := hperm.mem_iff.mp hm
    have : m = m0 :=
      List.inj_on_of_nodup_map hnodup2 hm2 hm0mem2 (by rw [hmid, hm0id])
    rw [this]
    exact hm0en

/-- Witness for C3 at a concrete configuration in which the two roots hold
marker-linked copies of the same logical mod. -/
theorem C3_active_copy_wins_witness :
    (["foo.pak"] : List String) ∈ [["foo.pak"]] ∧
    isModFileName (lastSeg ["foo.pak"]) = true ∧
    pathId ⟨"Root", "Root.disabled"⟩ ⟨true, ["foo.pak"]⟩ =
      pathId ⟨"Root", "Root.disabled"⟩ ⟨false, ["foo.pak"]⟩ ∧
    ((get_all_mods (fun _ => none) ⟨"2024-01-01T00:00:00Z"⟩
        ⟨"Root", "Root.disabled"⟩ [["foo.pak"]] [["foo.pak"]]).map
          (fun m => m.id)).count
        (pathId ⟨"Root", "Root.disabled"⟩ ⟨true, ["foo.pak"]⟩) = 1 ∧
    ∀ m ∈ get_all_mods (fun _ => none) ⟨"2024-01-01T00:00:00Z"⟩
        ⟨"Root", "Root.disabled"⟩ [["foo.pak"]] [["foo.pak"]],
      m.id = pathId ⟨"Root", "Root.disabled"⟩ ⟨true, ["foo.pak"]⟩ →
        m.enabled = true := by
  have hid : pathId ⟨"Root", "Root.disabled"⟩ ⟨true, ["foo.pak"]⟩ =
      pathId ⟨"Root", "Root.disabled"⟩ ⟨false, ["foo.pak"]⟩ := by
    show generate_mod_id_from_path (pathString _ _) _ =
      generate_mod_id_from_path (pathString _ _) _
    have h : removeDisabled (pathString ⟨"Root", "Root.disabled"⟩
        ⟨false, ["foo.pak"]⟩) = removeDisabled (pathString
          ⟨"Root", "Root.disabled"⟩ ⟨true, ["foo.pak"]⟩) := by decide
    simp only [generate_mod_id_from_path, h]
  have hmain := C3_active_copy_wins (fun _ => none) ⟨"2024-01-01T00:00:00Z"⟩
    ⟨"Root", "Root.disabled"⟩ [["foo.pak"]] [["foo.pak"]] ["foo.pak"] ["foo.pak"]
    (List.mem_singleton.mpr rfl) (by decide) (List.mem_singleton.mpr rfl)
    (by decide) hid
  exact ⟨List.mem_singleton.mpr rfl, by decide, hid, hmain.1, hmain.2⟩

/-! ### Organizer lemmas (C9) -/

theorem extSplit_cons (c : Char) (rest : List Char) :
    extSplit (c :: rest) =
      if c = '.' then some ((extSplit rest).getD rest) else extSplit rest := rfl

theorem rustExtension_cons (c : Char) (rest : List Char) :
    rustExtension ⟨c :: rest⟩ =
      if c = '.' then (extSplit rest).map (fun e => (⟨e⟩ : String))
      else (extSplit (c :: rest)).map (fun e => (⟨e⟩ : String)) := rfl

theorem extSplit_append (e : List Char) (he : extSplit e = none) :
    ∀ l : List Char, extSplit (l ++ '.' :: e) = some e := by
  intro l
  induction l with
  | nil =>
    rw [List.nil_append, extSplit_cons, if_pos rfl, he]
    rfl
  | cons c rest ih =>
    rw [List.cons_append, extSplit_cons]
    by_cases hc : c = '.'
    · rw [if_pos hc, ih]
      rfl
    · rw [if_neg hc, ih]

theorem isModFileName_append_ucas (s : String) :
    isModFileName (s ++ ".ucas") = false := by
  have hnone : extSplit "ucas".data = none := by decide
  have hmk : (s ++ ".ucas") = ⟨s.data ++ '.' :: "ucas".data⟩ := rfl
  rw [hmk]
  rcases hsd : s.data with _ | ⟨c, rest⟩
  · rw [List.nil_append]
    decide
  · rw [List.cons_append]
    unfold isModFileName
    rw [rustExtension_cons]
    by_cases hc : c = '.'
    · rw [if_pos hc, extSplit_append _ hnone]
      decide
    · rw [if_neg hc, extSplit_cons, if_neg hc, extSplit_append _ hnone]
      decide

theorem isModFileName_append_utoc (s : String) :
    isModFileName (s ++ ".utoc") = false := by
  have hnone : extSplit "utoc".data = none := by decide
  have hmk : (s ++ ".utoc") = ⟨s.data ++ '.' :: "utoc".data⟩ := rfl
  rw [hmk]
  rcases hsd : s.data with _ | ⟨c, rest⟩
  · rw [List.nil_append]
    decide
  · rw [List.cons_append]
    unfold isModFileName
    rw [rustExtension_cons]
    by_cases hc : c = '.'
    · rw [if_pos hc, extSplit_append _ hnone]
      decide
    · rw [if_neg hc, extSplit_cons, if_neg hc, extSplit_append _ hnone]
      decide

theorem create_mod_info_props (store : MetaStore) (now : DateTimeUtc) (d : Dirs)
    (fs : List (List String)) (fp : AbsPath) (e : Bool) :
    RecordProps (create_mod_info store now d fs fp e) := by
  have hassoc : (create_mod_info store now d fs fp e).assoc =
      (find_associated_files fs fp.segs).map (fun q => ⟨fp.active, q⟩) := by
    simp only [create_mod_info]
  have hpath : (create_mod_info store now d fs fp e).path = fp :=
    create_mod_info_path store now d fs fp e
  constructor
  · rw [hassoc, hpath]
    refine List.mem_map.mpr ⟨fp.segs, ?_, rfl⟩
    unfold find_associated_files
    exact List.mem_append_left _ (List.mem_append_left _ (List.mem_singleton.mpr rfl))
  · intro a ha
    rw [hassoc] at ha
    rw [hpath]
    obtain ⟨q, hq, hqa⟩ := List.mem_map.mp ha
    unfold find_associated_files at hq
    rcases List.mem_append.mp hq with hq1 | hq2
    · rcases List.mem_append.mp hq1 with hq3 | hq4
      · left
        rw [← hqa, List.mem_singleton.mp hq3]
      · right
        rw [← hqa]
        have : q = fp.segs.dropLast ++
            [((rustFileStem (lastSeg fp.segs)).getD "") ++ ".ucas"] := by
          by_cases hmem : (fp.segs.dropLast ++
              [((rustFileStem (lastSeg fp.segs)).getD "") ++ ".ucas"]) ∈ fs
          · rw [if_pos hmem] at hq4
            exact List.mem_singleton.mp hq4
          · rw [if_neg hmem] at hq4
            exact absurd hq4 (List.not_mem_nil q)
        show isModFileName (lastSeg q) = false
        rw [this]
        unfold lastSeg
        rw [List.getLast?_concat, Option.getD_some]
        exact isModFileName_append_ucas _
    · right
      rw [← hqa]
      have : q = fp.segs.dropLast ++
          [((rustFileStem (lastSeg fp.segs)).getD "") ++ ".utoc"] := by
        by_cases hmem : (fp.segs.dropLast ++
            [((rustFileStem (lastSeg fp.segs)).getD "") ++ ".utoc"]) ∈ fs
        · rw [if_pos hmem] at hq2
          exact List.mem_singleton.mp hq2
        · rw [if_neg hmem] at hq2
          exact absurd hq2 (List.not_mem_nil q)
      show isModFileName (lastSeg q) = false
      rw [this]
      unfold lastSeg
      rw [List.getLast?_concat, Option.getD_some]
      exact isModFileName_append_utoc _

/-- Identifiers added by one `processEntry` step are the candidate's own. -/
theorem processEntry_ids_sub (store : MetaStore) (now : DateTimeUtc) (d : Dirs)
    (fs : List (List String)) (active : Bool) (acc : ScanAcc) (p : List String)
    (i : String) (hi : i ∈ (processEntry store now d fs active acc p).ids) :
    i ∈ acc.ids ∨ i = pathId d ⟨active, p⟩ := by
  unfold processEntry at hi
  by_cases h1 : isModFileName (lastSeg p) = false
  · rw [if_pos h1] at hi; exact Or.inl hi
  · rw [if_neg h1] at hi
    by_cases h2 : (⟨active, p⟩ : AbsPath) ∈ acc.paths
    · rw [if_pos h2] at hi; exact Or.inl hi
    · rw [if_neg h2] at hi
      by_cases h3 : (create_mod_info store now d fs ⟨active, p⟩ active).id ∈ acc.ids
      · rw [if_pos h3] at hi; exact Or.inl hi
      · rw [if_neg h3] at hi
        rcases List.mem_append.mp hi with hi1 | hi2
        · exact Or.inl hi1
        · right
          rw [List.mem_singleton.mp hi2, create_mod_info_id]

theorem pakIds_cons_pak (d : Dirs) (active : Bool) (q : List String)
    (rest : List (List String)) (hq : isModFileName (lastSeg q) = true) :
    pakIds d active (q :: rest) =
      pathId d ⟨active, q⟩ :: pakIds d active rest := by
  simp [pakIds, List.filter_cons, hq]

theorem pakIds_cons_notpak (d : Dirs) (active : Bool) (q : List String)
    (rest : List (List String)) (hq : isModFileName (lastSeg q) = false) :
    pakIds d active (q :: rest) = pakIds d active rest := by
  simp [pakIds, List.filter_cons, hq]

/-- When no two walked `.pak` files share an identifier (and none collides
with an already-processed one), every walked `.pak` file gets its own record
— with exactly its path — in the scan result. -/
theorem scan_covers_path (store : MetaStore) (now : DateTimeUtc) (d : Dirs)
    (fs : List (List String)) (active : Bool) :
    ∀ (walk : List (List String)) (acc : ScanAcc), ScanInv d acc →
      (∀ q ∈ walk, isModFileName (lastSeg q) = true →
        pathId d ⟨active, q⟩ ∉ acc.ids) →
      (pakIds d active walk).Nodup →
      ∀ p ∈ walk, isModFileName (lastSeg p) = true →
        ∃ m ∈ (walk.foldl (processEntry store now d fs active) acc).mods,
          m.path = ⟨active, p⟩ ∧ m.enabled = active ∧
          m = create_mod_info store now d fs m.path active := by
  intro walk
  induction walk with
  | nil =>
    intro acc _ _ _ p hp _
    exact absurd hp (List.not_mem_nil p)
  | cons q rest ih =>
    intro acc hinv hdisj hnod p hp hpak
    simp only [List.foldl_cons]
    by_cases hqpak : isModFileName (lastSeg q) = true
    · have hqid : pathId d ⟨active, q⟩ ∉ acc.ids :=
        hdisj q (List.mem_cons_self q rest) hqpak
      rcases List.mem_cons.mp hp with heq | hrest
      · subst heq
        -- processing p itself: both dedup checks are clear, so it is pushed
        have hnp : (⟨active, p⟩ : AbsPath) ∉ acc.paths := by
          intro hc
          obtain ⟨hid, hpath, _, _, hall⟩ := hinv
          rw [← hpath] at hc
          obtain ⟨m, hm, hmp⟩ := List.mem_map.mp hc
          refine hqid ?_
          rw [← hid]
          refine List.mem_map.mpr ⟨m, hm, ?_⟩
          rw [hall m hm, hmp]
        have hni : (create_mod_info store now d fs ⟨active, p⟩ active).id ∉
            acc.ids := by
          rw [create_mod_info_id]
          exact hqid
        refine ⟨create_mod_info store now d fs ⟨active, p⟩ active, ?_, rfl,
          create_mod_info_enabled store now d fs ⟨active, p⟩ active, ?_⟩
        · apply scan_mods_mono store now d fs active rest
          unfold processEntry
          rw [if_neg (by simp [hpak]), if_neg hnp, if_neg hni]
          exact List.mem_append_right _ (List.mem_singleton.mpr rfl)
        · rw [create_mod_info_path]
      · -- p sits deeper in the walk
        rw [pakIds_cons_pak d active q rest hqpak, List.nodup_cons] at hnod
        refine ih (processEntry store now d fs active acc q)
          (processEntry_inv store now d fs active acc q hinv) ?_ hnod.2 p hrest hpak
        intro r hr hrpak hc
        rcases processEntry_ids_sub store now d fs active acc q _ hc with hc1 | hc2
        · exact hdisj r (List.mem_cons_of_mem q hr) hrpak hc1
        · refine hnod.1 ?_
          rw [← hc2]
          exact List.mem_map.mpr ⟨r, List.mem_filter.mpr ⟨hr, hrpak⟩, rfl⟩
    · -- head is not a `.pak`: the state is unchanged
      have hqf : isModFileName (lastSeg q) = false := by
        cases hb : isModFileName (lastSeg q)
        · rfl
        · exact absurd hb hqpak
      have hskip : processEntry store now d fs active acc q = acc := by
        unfold processEntry
        rw [if_pos hqf]
      rw [hskip]
      rcases List.mem_cons.mp hp with heq | hrest
      · subst heq
        rw [hpak] at hqf
        exact absurd hqf (by decide)
      · rw [pakIds_cons_notpak d active q rest hqf] at hnod
        exact ih acc hinv (fun r hr hrpak =>
          hdisj r (List.mem_cons_of_mem q hr) hrpak) hnod p hrest hpak

/-- Anything in the filesystem after one mod's files were moved was either
there before or is one of the moved destinations. -/
theorem moveFold_mem (tgt : List String) :
    ∀ (as : List AbsPath) (fs : List (List String)) (q : List String),
      q ∈ as.foldl (fun fs a =>
        renameFile fs a.segs (tgt ++ [lastSeg a.segs])) fs →
      q ∈ fs ∨ ∃ a ∈ as, q = tgt ++ [lastSeg a.segs] := by
  intro as
  induction as with
  | nil => intro fs q hq; exact Or.inl hq
  | cons a rest ih =>
    intro fs q hq
    simp only [List.foldl_cons] at hq
    rcases ih _ q hq with h1 | ⟨a', ha', he⟩
    · unfold renameFile at h1
      rcases List.mem_append.mp h1 with h2 | h3
      · exact Or.inl (List.mem_of_mem_filter h2)
      · exact Or.inr ⟨a, List.mem_cons_self a rest, List.mem_singleton.mp h3⟩
    · exact Or.inr ⟨a', List.mem_cons_of_mem a ha', he⟩

/-- A loose path that is absent stays absent through the moves: every
destination sits inside the (non-empty) target folder. -/
theorem moveFold_not_mem_of_loose (tgt : List String) (htgt : tgt ≠ [])
    (s : List String) (hs : s.dropLast = []) :
    ∀ (as : List AbsPath) (fs : List (List String)), s ∉ fs →
      s ∉ as.foldl (fun fs a =>
        renameFile fs a.segs (tgt ++ [lastSeg a.segs])) fs := by
  intro as
  induction as with
  | nil => intro fs h; exact h
  | cons a rest ih =>
    intro fs h
    simp only [List.foldl_cons]
    refine ih _ ?_
    unfold renameFile
    intro hc
    rcases List.mem_append.mp hc with h1 | h2
    · exact h (List.mem_of_mem_filter h1)
    · have heq := List.mem_singleton.mp h2
      exact htgt (by rw [heq, List.dropLast_concat] at hs; exact hs)

/-- A loose path that is one of the moved sources is gone afterwards. -/
theorem moveFold_removes (tgt : List String) (htgt : tgt ≠ [])
    (s : List String) (hs : s.dropLast = []) :
    ∀ (as : List AbsPath) (fs : List (List String)),
      (∃ a ∈ as, a.segs = s) →
      s ∉ as.foldl (fun fs a =>
        renameFile fs a.segs (tgt ++ [lastSeg a.segs])) fs := by
  intro as
  induction as with
  | nil =>
    intro fs h
    obtain ⟨a, ha, _⟩ := h
    exact absurd ha (List.not_mem_nil a)
  | cons a rest ih =>
    intro fs h
    obtain ⟨a', ha', hae⟩ := h
    simp only [List.foldl_cons]
    rcases List.mem_cons.mp ha' with h1 | h2
    · refine moveFold_not_mem_of_loose tgt htgt s hs rest _ ?_
      unfold renameFile
      intro hc
      rcases List.mem_append.mp hc with hc1 | hc2
      · have hmem := List.mem_filter.mp hc1
        have hne : s ≠ a.segs := by
          have := hmem.2
          simpa using this
        rw [h1] at hae
        exact hne hae.symm
      · have heq := List.mem_singleton.mp hc2
        exact htgt (by rw [heq, List.dropLast_concat] at hs; exact hs)
    · exact ih _ ⟨a', h2, hae⟩

theorem organizeTargetFolder_ne_nil (m : ModInfo) :
    organizeTargetFolder m ≠ [] := by
  unfold organizeTargetFolder
  intro hc
  rcases List.append_eq_nil.mp hc with ⟨h1, _⟩
  exact List.cons_ne_nil _ _ h1

/-- After the organizer fold runs over all remaining records, no enabled
loose `.pak` file remains in the active root. -/
theorem organize_fold_eliminates :
    ∀ (ms : List ModInfo) (fs : List (List String)) (k : Nat),
      LooseCovered ms fs →
      ((ms.map (fun m => m.path)).Nodup) →
      (∀ m ∈ ms, RecordProps m) →
      ∀ q ∈ (ms.foldl organizeModStep (fs, k)).1,
        isModFileName (lastSeg q) = true → ¬ q.dropLast = [] := by
  intro ms
  induction ms with
  | nil =>
    intro fs k hcov _ _ q hq hpak hloose
    obtain ⟨m, hm, _⟩ := hcov q hq hpak hloose
    exact absurd hm (List.not_mem_nil m)
  | cons m0 rest ih =>
    intro fs k hcov hnd hprops
    simp only [List.map_cons, List.nodup_cons] at hnd
    simp only [List.foldl_cons]
    by_cases hen : m0.enabled = false
    · have hstep : organizeModStep (fs, k) m0 = (fs, k) := by
        unfold organizeModStep
        rw [if_pos hen]
      rw [hstep]
      refine ih fs k ?_ hnd.2 (fun m hm => hprops m (List.mem_cons_of_mem m0 hm))
      intro q hq hpak hloose
      obtain ⟨m, hm, hmp, hmen⟩ := hcov q hq hpak hloose
      rcases List.mem_cons.mp hm with h1 | h2
      · rw [h1] at hmen
        rw [hen] at hmen
        exact absurd hmen (by decide)
      · exact ⟨m, h2, hmp, hmen⟩
    · by_cases hl : m0.path.active = true ∧ m0.path.segs.dropLast = []
      · have hstep : organizeModStep (fs, k) m0 =
            (m0.assoc.foldl (fun fs a =>
              renameFile fs a.segs (organizeTargetFolder m0 ++ [lastSeg a.segs]))
                fs, k + 1) := by
          unfold organizeModStep
          rw [if_neg hen, if_pos hl]
        rw [hstep]
        have htgt := organizeTargetFolder_ne_nil m0
        refine ih _ (k + 1) ?_ hnd.2
          (fun m hm => hprops m (List.mem_cons_of_mem m0 hm))
        intro q hq hpak hloose
        rcases moveFold_mem (organizeTargetFolder m0) m0.assoc fs q hq with
          hqfs | ⟨a, ha, he⟩
        · have hqne : q ≠ m0.path.segs := by
            intro he
            refine moveFold_removes (organizeTargetFolder m0) htgt q hloose
              m0.assoc fs ⟨m0.path, (hprops m0 (List.mem_cons_self m0 rest)).1,
                he.symm⟩ hq
          obtain ⟨m, hm, hmp, hmen⟩ := hcov q hqfs hpak hloose
          rcases List.mem_cons.mp hm with h1 | h2
          · exfalso
            apply hqne
            rw [h1] at hmp
            exact (congrArg AbsPath.segs hmp).symm
          · exact ⟨m, h2, hmp, hmen⟩
        · exfalso
          exact htgt (by rw [he, List.dropLast_concat] at hloose; exact hloose)
      · have hstep : organizeModStep (fs, k) m0 = (fs, k) := by
          unfold organizeModStep
          rw [if_neg hen, if_neg hl]
        rw [hstep]
        refine ih fs k ?_ hnd.2 (fun m hm => hprops m (List.mem_cons_of_mem m0 hm))
        intro q hq hpak hloose
        obtain ⟨m, hm, hmp, hmen⟩ := hcov q hq hpak hloose
        rcases List.mem_cons.mp hm with h1 | h2
        · exfalso
          apply hl
          rw [h1] at hmp
          constructor
          · rw [hmp]
          · rw [hmp]
            exact hloose
        · exact ⟨m, h2, hmp, hmen⟩

/-- When no record passes the enabled-and-loose test, the organizer fold is
the identity and counts nothing. -/
theorem organize_fold_no_loose :
    ∀ (ms : List ModInfo) (fs : List (List String)) (k : Nat),
      (∀ m ∈ ms, m.enabled = false ∨
        ¬(m.path.active = true ∧ m.path.segs.dropLast = [])) →
      ms.foldl organizeModStep (fs, k) = (fs, k) := by
  intro ms
  induction ms with
  | nil => intro fs k _; rfl
  | cons m0 rest ih =>
    intro fs k h
    simp only [List.foldl_cons]
    have hstep : organizeModStep (fs, k) m0 = (fs, k) := by
      unfold organizeModStep
      rcases h m0 (List.mem_cons_self m0 rest) with h1 | h2
      · rw [if_pos h1]
      · by_cases hen : m0.enabled = false
        · rw [if_pos hen]
        · rw [if_neg hen, if_neg h2]
    rw [hstep]
    exact ih fs k (fun m hm => h m (List.mem_cons_of_mem m0 hm))

/-- After one complete `organize_loose_mods` run (with pairwise-distinct
identifiers among the active root's `.pak` files), no `.pak` file sits
directly in the active root any more. -/
theorem organize_no_loose_after (store : MetaStore) (now : DateTimeUtc)
    (d : Dirs) (fsA fsD : List (List String))
    (H : (pakIds d true fsA).Nodup) :
    ∀ q ∈ (organize_loose_mods store now d fsA fsD).1,
      isModFileName (lastSeg q) = true → ¬ q.dropLast = [] := by
  have hcov : LooseCovered (get_all_mods store now d fsA fsD) fsA := by
    intro q hq hpak _
    obtain ⟨m, hm, hmp, hmen, _⟩ := scan_covers_path store now d fsA true fsA
      ⟨[], [], []⟩ (scanInv_empty d)
      (fun r _ _ hc => absurd hc (List.not_mem_nil _)) H q hq hpak
    refine ⟨m, ?_, hmp, hmen⟩
    simp only [get_all_mods]
    exact (sortByName_perm _).mem_iff.mpr
      (scan_mods_mono store now d fsD false fsD _ m hm)
  have hinv2 : ScanInv d (scan_directory_with_deduplication store now d fsD false
      (scan_directory_with_deduplication store now d fsA true ⟨[], [], []⟩)) :=
    scan_inv store now d fsD false fsD _
      (scan_inv store now d fsA true fsA _ (scanInv_empty d))
  have hnd : ((get_all_mods store now d fsA fsD).map (fun m => m.path)).Nodup := by
    obtain ⟨_, hpath, _, hnpath, _⟩ := hinv2
    simp only [get_all_mods]
    exact (((sortByName_perm _).map (fun m => m.path)).nodup_iff).mpr
      (hpath ▸ hnpath)
  have hprops : ∀ m ∈ get_all_mods store now d fsA fsD, RecordProps m := by
    intro m hm
    simp only [get_all_mods] at hm
    have hm2 := (sortByName_perm _).mem_iff.mp hm
    rcases scan_mem_characterization store now d fsD false fsD _ m
        (fun x hx => hx) hm2 with hin1 | ⟨_, hnew⟩
    · rcases scan_mem_characterization store now d fsA true fsA ⟨[], [], []⟩ m
          (fun x hx => hx) hin1 with h0 | ⟨_, hnew⟩
      · exact absurd h0 (List.not_mem_nil m)
      · rw [hnew.2.2.2.2]
        exact create_mod_info_props store now d fsA m.path true
    · rw [hnew.2.2.2.2]
      exact create_mod_info_props store now d fsD m.path false
  exact organize_fold_eliminates (get_all_mods store now d fsA fsD) fsA 0
    hcov hnd hprops

/-- C9 amended: `organize_loose_mods` is idempotent in its move count
provided no two `.pak` files of the active root share a (marker-normalized,
truncated-hash) identifier: after the first run no enabled mod's primary
file has the active root as its literal parent, so an immediately following
second run performs and reports 0 moves.  Without the proviso the id-based
scan deduplication can leave a skipped duplicate loose (see the
counterexample). -/
theorem C9_organize_idempotent_amended (store : MetaStore)
    (now now2 : DateTimeUtc) (d : Dirs) (fsA fsD : List (List String))
    (H : (pakIds d true fsA).Nodup) :
    (organize_loose_mods store now2 d
      (organize_loose_mods store now d fsA fsD).1 fsD).2 = 0 := by
  have h1 := organize_no_loose_after store now d fsA fsD H
  have h2 : ∀ m ∈ get_all_mods store now2 d
      (organize_loose_mods store now d fsA fsD).1 fsD,
      m.enabled = false ∨
        ¬(m.path.active = true ∧ m.path.segs.dropLast = []) := by
    intro m hm
    simp only [get_all_mods] at hm
    have hm2 := (sortByName_perm _).mem_iff.mp hm
    rcases scan_mem_characterization store now2 d fsD false fsD _ m
        (fun x hx => hx) hm2 with hin1 | ⟨_, hnew⟩
    · rcases scan_mem_characterization store now2 d
          (organize_loose_mods store now d fsA fsD).1 true
          (organize_loose_mods store now d fsA fsD).1 ⟨[], [], []⟩ m
          (fun x hx => hx) hin1 with h0 | ⟨_, hnew⟩
      · exact absurd h0 (List.not_mem_nil m)
      · right
        intro hc
        exact h1 m.path.segs hnew.2.2.1 hnew.2.2.2.1 hc.2
    · left
      exact hnew.1
  show ((get_all_mods store now2 d (organize_loose_mods store now d fsA fsD).1
      fsD).foldl organizeModStep ((organize_loose_mods store now d fsA fsD).1,
        0)).2 = 0
  rw [organize_fold_no_loose _ _ _ h2]

/-- Witness for the amended C9 at a concrete configuration. -/
theorem C9_organize_idempotent_amended_witness :
    (pakIds ⟨"R", "D"⟩ true [["a.pak"]]).Nodup ∧
    (organize_loose_mods (fun _ => none) ⟨"2024-01-01T00:00:00Z"⟩ ⟨"R", "D"⟩
      (organize_loose_mods (fun _ => none) ⟨"2024-01-01T00:00:00Z"⟩ ⟨"R", "D"⟩
        [["a.pak"]] []).1 []).2 = 0 :=
  ⟨by decide, C9_organize_idempotent_amended (fun _ => none)
    ⟨"2024-01-01T00:00:00Z"⟩ ⟨"2024-01-01T00:00:00Z"⟩ ⟨"R", "D"⟩
    [["a.pak"]] [] (by decide)⟩

set_option maxRecDepth 40000 in
/-- C9 counterexample: with `foo.pak` and `foo.disabled.pak` both loose in
the active root, the two files carry the same identifier, so the scan's
id-deduplication hides the second one; the first run moves only one file and
reports 1, leaving `foo.pak` loose, and the immediately following second run
moves it and reports 1 — not 0 as the claim states. -/
theorem C9_counterexample :
    (organize_loose_mods (fun _ => none) ⟨"t"⟩ ⟨"R", "D"⟩
      [["foo.disabled.pak"], ["foo.pak"]] []).2 = 1 ∧
    (organize_loose_mods (fun _ => none) ⟨"t"⟩ ⟨"R", "D"⟩
      [["foo.disabled.pak"], ["foo.pak"]] []).1 =
        [["foo.pak"], ["Skins", "Foo", "foo.disabled.pak"]] ∧
    (organize_loose_mods (fun _ => none) ⟨"t"⟩ ⟨"R", "D"⟩
      (organize_loose_mods (fun _ => none) ⟨"t"⟩ ⟨"R", "D"⟩
        [["foo.disabled.pak"], ["foo.pak"]] []).1 []).2 = 1 := by
  have hmid : (organize_loose_mods (fun _ => none) ⟨"t"⟩ ⟨"R", "D"⟩
      [["foo.disabled.pak"], ["foo.pak"]] []).1 =
        [["foo.pak"], ["Skins", "Foo", "foo.disabled.pak"]] := by decide
  have h2 : (organize_loose_mods (fun _ => none) ⟨"t"⟩ ⟨"R", "D"⟩
      [["foo.pak"], ["Skins", "Foo", "foo.disabled.pak"]] []).2 = 1 := by decide
  refine ⟨by decide, hmid, ?_⟩
  rw [hmid]
  exact h2

/-! ### Enable/disable lemmas (C5) -/

theorem moveFileTo_true_fst (ab : List (List String) × List (List String))
    (a : AbsPath) :
    (moveFileTo ab a true).1 =
      (if a.active = true then ab.1.filter (fun q => q ≠ a.segs) else ab.1) ++
        [[lastSeg a.segs]] := by
  cases ha : a.active <;> simp [moveFileTo, ha]

theorem moveFileTo_false_snd (ab : List (List String) × List (List String))
    (a : AbsPath) :
    (moveFileTo ab a false).2 =
      (if a.active = true then ab.2 else ab.2.filter (fun q => q ≠ a.segs)) ++
        [[lastSeg a.segs]] := by
  cases ha : a.active <;> simp [moveFileTo, ha]

/-- A file at the destination root survives later single-file moves whose
file names differ from it. -/
theorem enableFold_keep (n : String) (enabled : Bool) :
    ∀ (as : List AbsPath) (ab : List (List String) × List (List String)),
      (∀ a ∈ as, lastSeg a.segs ≠ n) →
      [n] ∈ (if enabled = true then ab.1 else ab.2) →
      [n] ∈ (if enabled = true then
          (as.foldl (fun ab a => moveFileTo ab a enabled) ab).1
        else (as.foldl (fun ab a => moveFileTo ab a enabled) ab).2) := by
  intro as
  induction as with
  | nil => intro ab _ h; exact h
  | cons a rest ih =>
    intro ab hne h
    simp only [List.foldl_cons]
    refine ih _ (fun a' ha' => hne a' (List.mem_cons_of_mem a ha')) ?_
    have hna := hne a (List.mem_cons_self a rest)
    have hsne : [n] ≠ a.segs := by
      intro hc
      exact hna (by rw [← hc]; rfl)
    cases he : enabled with
    | true =>
      rw [if_pos he] at h
      rw [if_pos rfl, moveFileTo_true_fst]
      refine List.mem_append_left _ ?_
      by_cases ha : a.active = true
      · rw [if_pos ha]
        exact List.mem_filter.mpr ⟨h, by simpa using hsne⟩
      · rw [if_neg ha]
        exact h
    | false =>
      rw [if_neg (by simp [he])] at h
      rw [if_neg (by simp), moveFileTo_false_snd]
      refine List.mem_append_left _ ?_
      by_cases ha : a.active = true
      · rw [if_pos ha]
        exact h
      · rw [if_neg ha]
        exact List.mem_filter.mpr ⟨h, by simpa using hsne⟩

/-- Every associated file ends up in the destination root under its
unchanged file name. -/
theorem enableFold_names_mem (enabled : Bool) :
    ∀ (as : List AbsPath) (ab : List (List String) × List (List String)),
      ((as.map (fun a => lastSeg a.segs)).Nodup) →
      ∀ a ∈ as, [lastSeg a.segs] ∈
        (if enabled = true then
          (as.foldl (fun ab a => moveFileTo ab a enabled) ab).1
        else (as.foldl (fun ab a => moveFileTo ab a enabled) ab).2) := by
  intro as
  induction as with
  | nil =>
    intro ab _ a ha
    exact absurd ha (List.not_mem_nil a)
  | cons a0 rest ih =>
    intro ab hnd a ha
    simp only [List.map_cons, List.nodup_cons] at hnd
    simp only [List.foldl_cons]
    rcases List.mem_cons.mp ha with h1 | h2
    · subst h1
      refine enableFold_keep (lastSeg a.segs) enabled rest _ ?_ ?_
      · intro a' ha' hc
        exact hnd.1 (List.mem_map.mpr ⟨a', ha', hc⟩)
      · cases he : enabled with
        | true =>
          rw [if_pos rfl, moveFileTo_true_fst]
          exact List.mem_append_right _ (List.mem_singleton.mpr rfl)
        | false =>
          rw [if_neg (by simp), moveFileTo_false_snd]
          exact List.mem_append_right _ (List.mem_singleton.mpr rfl)
    · exact ih _ hnd.2 a h2

/-- C5 amended: `enable_mod` fails exactly when the identifier is not found
by the fresh scan; on success it moves every associated file into the
destination root, keeping each file's name unchanged — the disabled marker
is neither applied when disabling nor stripped when enabling. -/
theorem C5_enable_mod_amended (store : MetaStore) (now : DateTimeUtc) (d : Dirs)
    (fsA fsD : List (List String)) (mod_id : String) (enabled : Bool) :
    ((get_all_mods store now d fsA fsD).find? (fun m => m.id = mod_id) = none →
      enable_mod store now d fsA fsD mod_id enabled = .error "Mod not found") ∧
    ∀ info, (get_all_mods store now d fsA fsD).find? (fun m => m.id = mod_id) =
        some info →
      ((info.assoc.map (fun a => lastSeg a.segs)).Nodup) →
      ∃ fsA' fsD',
        enable_mod store now d fsA fsD mod_id enabled = .ok (fsA', fsD') ∧
        ∀ a ∈ info.assoc,
          [lastSeg a.segs] ∈ (if enabled = true then fsA' else fsD') := by
  constructor
  · intro h
    unfold enable_mod
    rw [h]
  · intro info h hnd
    refine ⟨(info.assoc.foldl (fun ab a => moveFileTo ab a enabled) (fsA, fsD)).1,
      (info.assoc.foldl (fun ab a => moveFileTo ab a enabled) (fsA, fsD)).2, ?_, ?_⟩
    · unfold enable_mod
      rw [h]
    · exact enableFold_names_mem enabled info.assoc (fsA, fsD) hnd

set_option maxRecDepth 40000 in
/-- Witness for the amended C5: disabling the one scanned mod moves its file
to the disabled root under the unchanged name `foo.pak`. -/
theorem C5_enable_mod_amended_witness :
    ((get_all_mods (fun _ => none) ⟨"t"⟩ ⟨"R", "D"⟩ [["foo.pak"]] []).find?
        (fun m => m.id = pathId ⟨"R", "D"⟩ ⟨true, ["foo.pak"]⟩) =
      some (create_mod_info (fun _ => none) ⟨"t"⟩ ⟨"R", "D"⟩ [["foo.pak"]]
        ⟨true, ["foo.pak"]⟩ true)) ∧
    (((create_mod_info (fun _ => none) ⟨"t"⟩ ⟨"R", "D"⟩ [["foo.pak"]]
        ⟨true, ["foo.pak"]⟩ true).assoc.map (fun a => lastSeg a.segs)).Nodup) ∧
    ∃ fsA' fsD',
      enable_mod (fun _ => none) ⟨"t"⟩ ⟨"R", "D"⟩ [["foo.pak"]] []
        (pathId ⟨"R", "D"⟩ ⟨true, ["foo.pak"]⟩) false = .ok (fsA', fsD') ∧
      ∀ a ∈ (create_mod_info (fun _ => none) ⟨"t"⟩ ⟨"R", "D"⟩ [["foo.pak"]]
          ⟨true, ["foo.pak"]⟩ true).assoc,
        [lastSeg a.segs] ∈ (if false = true then fsA' else fsD') := by
  refine ⟨by decide, by decide, ?_⟩
  exact (C5_enable_mod_amended (fun _ => none) ⟨"t"⟩ ⟨"R", "D"⟩ [["foo.pak"]] []
    (pathId ⟨"R", "D"⟩ ⟨true, ["foo.pak"]⟩) false).2
    (create_mod_info (fun _ => none) ⟨"t"⟩ ⟨"R", "D"⟩ [["foo.pak"]]
      ⟨true, ["foo.pak"]⟩ true) (by decide) (by decide)

set_option maxRecDepth 40000 in
/-- C5 counterexample: disabling a mod whose primary file is `foo.pak` moves
the file to the disabled root still named `foo.pak` — the `.disabled` marker
is not applied to the file name, refuting that part of the claim. -/
theorem C5_counterexample :
    (enable_mod (fun _ => none) ⟨"t"⟩ ⟨"R", "D"⟩ [["foo.pak"]] []
      (pathId ⟨"R", "D"⟩ ⟨true, ["foo.pak"]⟩) false).toOption =
      some ([], [["foo.pak"]]) := by
  decide

/-- C6 amended: the two folder variants persist a metadata sidecar under the
newly installed file's derived identifier before returning (the freshly
built record's own metadata, resp. the caller-supplied metadata), but the
plain file install returns the store unchanged — it persists nothing. -/
theorem C6_install_metadata_persistence_amended (store : MetaStore)
    (now : DateTimeUtc) (d : Dirs) (fsA : List (List String)) (src : SrcFile)
    (folder_name : String) (m : ModMetadata)
    (hext : isModFileName src.name = true) :
    (∀ fs' store' info,
        install_mod_to_folder store now d fsA src folder_name =
          .ok (fs', store', info) → store' info.id = some info.metadata) ∧
    (∀ fs' store' info,
        install_mod_to_folder_with_metadata store now d fsA src folder_name m =
          .ok (fs', store', info) → store' info.id = some m) ∧
    (∀ fs' store' info,
        install_mod store now d fsA src = .ok (fs', store', info) →
          store' = store) := by
  refine ⟨?_, ?_, ?_⟩
  · intro fs' store' info h
    unfold install_mod_to_folder at h
    rw [if_neg (by simp [hext])] at h
    simp only [Except.ok.injEq, Prod.mk.injEq] at h
    obtain ⟨h1, h2, h3⟩ := h
    subst h2
    subst h3
    simp [storeInsert]
  · intro fs' store' info h
    unfold install_mod_to_folder_with_metadata at h
    rw [if_neg (by simp [hext])] at h
    simp only [Except.ok.injEq, Prod.mk.injEq] at h
    obtain ⟨h1, h2, h3⟩ := h
    subst h2
    subst h3
    simp [storeInsert]
  · intro fs' store' info h
    unfold install_mod at h
    rw [if_neg (by simp [hext])] at h
    simp only [Except.ok.injEq, Prod.mk.injEq] at h
    exact h.2.1.symm

set_option maxRecDepth 40000 in
/-- Witness for the amended C6: installing `bar.pak` into folder `MyMod`
through `install_mod_to_folder` leaves the new record's metadata in the
store under the record's identifier. -/
theorem C6_install_metadata_persistence_amended_witness :
    isModFileName "bar.pak" = true ∧
    (storeInsert (fun _ => none)
        (create_mod_info (fun _ => none) ⟨"t"⟩ ⟨"R", "D"⟩ [["MyMod", "bar.pak"]]
          ⟨true, ["MyMod", "bar.pak"]⟩ true).id
        (create_mod_info (fun _ => none) ⟨"t"⟩ ⟨"R", "D"⟩ [["MyMod", "bar.pak"]]
          ⟨true, ["MyMod", "bar.pak"]⟩ true).metadata)
      (create_mod_info (fun _ => none) ⟨"t"⟩ ⟨"R", "D"⟩ [["MyMod", "bar.pak"]]
        ⟨true, ["MyMod", "bar.pak"]⟩ true).id =
      some (create_mod_info (fun _ => none) ⟨"t"⟩ ⟨"R", "D"⟩ [["MyMod", "bar.pak"]]
        ⟨true, ["MyMod", "bar.pak"]⟩ true).metadata := by
  refine ⟨by decide, ?_⟩
  exact (C6_install_metadata_persistence_amended (fun _ => none) ⟨"t"⟩ ⟨"R", "D"⟩
      [] ⟨"S", "bar.pak", false, false⟩ "MyMod"
      (synthMetadata ⟨"t"⟩ "" "bar.pak") (by decide)).1
    [["MyMod", "bar.pak"]]
    (storeInsert (fun _ => none)
      (create_mod_info (fun _ => none) ⟨"t"⟩ ⟨"R", "D"⟩ [["MyMod", "bar.pak"]]
        ⟨true, ["MyMod", "bar.pak"]⟩ true).id
      (create_mod_info (fun _ => none) ⟨"t"⟩ ⟨"R", "D"⟩ [["MyMod", "bar.pak"]]
        ⟨true, ["MyMod", "bar.pak"]⟩ true).metadata)
    (create_mod_info (fun _ => none) ⟨"t"⟩ ⟨"R", "D"⟩ [["MyMod", "bar.pak"]]
      ⟨true, ["MyMod", "bar.pak"]⟩ true)
    rfl

set_option maxRecDepth 40000 in
/-- C6 counterexample: the plain file install returns with the store exactly
as it was — on an empty store, looking up the new record's identifier
afterwards finds nothing, refuting that every install variant persists a
sidecar before returning. -/
theorem C6_counterexample :
    ((install_mod (fun _ => none) ⟨"t"⟩ ⟨"R", "D"⟩ []
        ⟨"S", "bar.pak", false, false⟩).toOption.map
      (fun r => (r.1, r.2.1 r.2.2.id))) = some ([["bar.pak"]], none) := by
  decide

/-- C7: `merge_duplicate_folders` does NOT leave a skipped conflicting child
behind.  With `BlackWidow` merging into `Black-Widow`, the child `ModA`
conflicts and is skipped, `ModB` is moved — and then the whole source folder
is deleted by `delete_directory_with_retry` (`fs::remove_dir_all`), which
destroys the skipped child `ModA` and its file `a.pak`: the file exists
neither at the source nor at the target afterwards. -/
theorem C7_merge_destroys_skipped_child :
    mergeSourceIntoTarget
        [["BlackWidow", "ModA", "a.pak"], ["Black-Widow", "ModA", "b.pak"],
          ["BlackWidow", "ModB", "c.pak"]]
        ["BlackWidow"] ["Black-Widow"] =
      [["Black-Widow", "ModA", "b.pak"], ["Black-Widow", "ModB", "c.pak"]] ∧
    ["BlackWidow", "ModA", "a.pak"] ∉
      mergeSourceIntoTarget
        [["BlackWidow", "ModA", "a.pak"], ["Black-Widow", "ModA", "b.pak"],
          ["BlackWidow", "ModB", "c.pak"]]
        ["BlackWidow"] ["Black-Widow"] ∧
    ["Black-Widow", "ModA", "a.pak"] ∉
      mergeSourceIntoTarget
        [["BlackWidow", "ModA", "a.pak"], ["Black-Widow", "ModA", "b.pak"],
          ["BlackWidow", "ModB", "c.pak"]]
        ["BlackWidow"] ["Black-Widow"] := by
  decide

end MRMM
